import Mathlib

/-!
Verification development for the xnoxs-fetcher repository.

This file gives a shallow embedding, in Lean 4, of the parts of the
repository relevant to the frozen claims:

* `xnoxs_fetcher/core.py` — the `TimeFrame` enum and `TimeFrame.from_string`,
  the wire-message framing (`_add_header`, `_build_message`,
  `_create_ws_message`), the response record parsing loop of
  `_parse_raw_data`, and `_format_symbol`.
* `xnoxs_fetcher/websocket_manager.py` — the `ConnectionState` machine and
  the `connect` / `disconnect` / `reconnect` / `send` / `receive` operations
  of `WebSocketManager`.
* `xnoxs_fetcher/live_feed.py` and `xnoxs_fetcher/models.py` — the
  `IntervalTracker` scheduler (buckets keyed by interval, trigger times,
  the cached `_next_trigger`), `SymbolSet` / `DataConsumer`, subscription
  registration (`create_symbol_set` / `remove_symbol_set`) and the
  orchestrator loop `_data_loop` with its retry/staleness shutdown path.

Modelling conventions:
* `datetime` values and interval durations are modelled as integer minutes;
  `relativedelta(months=1)` (used only for the `"1M"` bucket, which no claim
  exercises arithmetically) is modelled as a fixed 30-day duration — no
  theorem below depends on that value.
* Python exceptions are modelled explicitly: an operation that can raise
  returns its result together with a `Bool` "raised" flag (mutations
  performed before the raise are kept, as in Python), or returns an
  `Option`.
* Effects performed through the network are oracles: a fetch is a function
  from attempt number to the `Option` of the latest bar timestamp it would
  return; a socket open is a `Bool` per attempt.
* Object identity of `SymbolSet` instances is modelled by a numeric `sid`
  tag carried by each instance; Python `__eq__` (symbol/exchange/interval
  equality) is modelled separately by `seisEq`.
-/

/-- `TimeFrame` enum from `core.py`: the supported chart timeframes. -/
inductive TimeFrame where
  | MINUTE_1 | MINUTE_3 | MINUTE_5 | MINUTE_15 | MINUTE_30 | MINUTE_45
  | HOUR_1 | HOUR_2 | HOUR_3 | HOUR_4
  | DAILY | WEEKLY | MONTHLY
  deriving DecidableEq, Repr

/-- The `value` of each `TimeFrame` member: the interval string used on the wire. -/
def tfValue : TimeFrame → String
  | .MINUTE_1 => "1"
  | .MINUTE_3 => "3"
  | .MINUTE_5 => "5"
  | .MINUTE_15 => "15"
  | .MINUTE_30 => "30"
  | .MINUTE_45 => "45"
  | .HOUR_1 => "1H"
  | .HOUR_2 => "2H"
  | .HOUR_3 => "3H"
  | .HOUR_4 => "4H"
  | .DAILY => "1D"
  | .WEEKLY => "1W"
  | .MONTHLY => "1M"

/-- The alias dictionary of `TimeFrame.from_string` (`core.py` lines 63-77),
in source order.  Keys are the accepted alias strings. -/
def fromStringMapping : List (String × TimeFrame) :=
  [("1", .MINUTE_1), ("1m", .MINUTE_1),
   ("3", .MINUTE_3), ("3m", .MINUTE_3),
   ("5", .MINUTE_5), ("5m", .MINUTE_5),
   ("15", .MINUTE_15), ("15m", .MINUTE_15),
   ("30", .MINUTE_30), ("30m", .MINUTE_30),
   ("45", .MINUTE_45), ("45m", .MINUTE_45),
   ("1h", .HOUR_1), ("1H", .HOUR_1),
   ("2h", .HOUR_2), ("2H", .HOUR_2),
   ("3h", .HOUR_3), ("3H", .HOUR_3),
   ("4h", .HOUR_4), ("4H", .HOUR_4),
   ("1d", .DAILY), ("1D", .DAILY), ("d", .DAILY),
   ("1w", .WEEKLY), ("1W", .WEEKLY), ("w", .WEEKLY),
   ("1M", .MONTHLY), ("M", .MONTHLY)]

/-- `TimeFrame.from_string`: dictionary lookup; `none` models the raised
`ValueError` for unknown strings. -/
def fromString (value : String) : Option TimeFrame :=
  fromStringMapping.lookup value

/-- The set of alias strings accepted by `from_string` (the mapping's keys). -/
def aliasSet : List String := fromStringMapping.map Prod.fst

theorem lookup_eq_none_iff {β : Type} (l : List (String × β)) (s : String) :
    l.lookup s = none ↔ ¬ s ∈ l.map Prod.fst := by
  induction l with
  | nil => simp [List.lookup]
  | cons p rest ih =>
    cases p with
    | mk k v =>
      by_cases h : s = k
      · subst h
        simp [List.lookup]
      · have hb : (s == k) = false := beq_eq_false_iff_ne.mpr h
        simp [List.lookup, hb, ih, h]

/-- Python `str` of a decimal digit (values 0-9). -/
def digitChar10 : Nat → Char
  | 0 => '0' | 1 => '1' | 2 => '2' | 3 => '3' | 4 => '4'
  | 5 => '5' | 6 => '6' | 7 => '7' | 8 => '8' | _ => '9'

/-- Decimal digits of a natural number, most significant first
(fuel-based recursion; fuel `n+1` always suffices). -/
def natReprGo : Nat → Nat → List Char → List Char
  | 0, _, acc => acc
  | fuel + 1, n, acc =>
    if n < 10 then digitChar10 n :: acc
    else natReprGo fuel (n / 10) (digitChar10 (n % 10) :: acc)

/-- Python `str(n)` for a nonnegative integer. -/
def natRepr (n : Nat) : String := ⟨natReprGo (n + 1) n []⟩

/-- Python `str(n)` for an `int` (decimal, with a leading minus sign). -/
def intRepr (n : Int) : String :=
  if n < 0 then "-" ++ natRepr n.natAbs else natRepr n.toNat

/-- `XnoxsFetcher._format_symbol` (`core.py` lines 352-378): the wire symbol
used by `get_historical_data`.  A symbol containing a colon is used verbatim;
otherwise `exchange:symbol`, with `str(contract) + "!"` appended when a
futures contract number is given. -/
def formatSymbol (symbol exchange : String) (contract : Option Int) : String :=
  if symbol.data.contains ':' then symbol
  else
    match contract with
    | none => exchange ++ ":" ++ symbol
    | some n => exchange ++ ":" ++ symbol ++ intRepr n ++ "!"

/-! ## Wire-message framing (`core.py` lines 279-291, `websocket_manager.py` 288-296)

`_build_message` is `json.dumps({"m": func_name, "p": params},
separators=(",", ":"))`.  The JSON-serializable parameter values actually
sent by the client (strings, integers, booleans, `None`, nested lists and
objects) are modelled by `JValue`; `jsonDumps` mirrors `json.dumps` with
those compact separators and its default `ensure_ascii=True` escaping
(including surrogate-pair escapes for astral characters). -/

inductive JValue where
  | jnull : JValue
  | jbool : Bool → JValue
  | jint : Int → JValue
  | jstr : String → JValue
  | jarr : List JValue → JValue
  | jobj : List (String × JValue) → JValue

/-- Lowercase hexadecimal digit, as produced by `json.dumps` escapes. -/
def hexDigit (d : Nat) : Char :=
  if d < 10 then digitChar10 d
  else if d = 10 then 'a'
  else if d = 11 then 'b'
  else if d = 12 then 'c'
  else if d = 13 then 'd'
  else if d = 14 then 'e'
  else 'f'

/-- Four lowercase hex digits of `n` (for `\uXXXX` escapes). -/
def hex4 (n : Nat) : List Char :=
  [hexDigit (n / 4096 % 16), hexDigit (n / 256 % 16),
   hexDigit (n / 16 % 16), hexDigit (n % 16)]

/-- Escaping of one character by `json.dumps` with `ensure_ascii=True`:
printable ASCII other than quote and backslash is kept; quote, backslash
and the usual control characters get two-character escapes; everything
else becomes `\uXXXX` (a surrogate pair for code points above `0xFFFF`). -/
def escapeChar (c : Char) : List Char :=
  if c = '"' then ['\\', '"']
  else if c = '\\' then ['\\', '\\']
  else if c = '\x08' then ['\\', 'b']
  else if c = '\t' then ['\\', 't']
  else if c = '\n' then ['\\', 'n']
  else if c = '\x0c' then ['\\', 'f']
  else if c = '\r' then ['\\', 'r']
  else if 0x20 ≤ c.toNat ∧ c.toNat ≤ 0x7E then [c]
  else if c.toNat < 0x10000 then '\\' :: 'u' :: hex4 c.toNat
  else
    ('\\' :: 'u' :: hex4 (0xD800 + (c.toNat - 0x10000) / 1024)) ++
      ('\\' :: 'u' :: hex4 (0xDC00 + (c.toNat - 0x10000) % 1024))

/-- JSON serialization of a string: quoted, characters escaped. -/
def dumpString (s : String) : String :=
  ⟨'"' :: (s.data.flatMap escapeChar) ++ ['"']⟩

mutual

/-- `json.dumps(v, separators=(",", ":"))` for the modelled value types. -/
def jsonDumps : JValue → String
  | .jnull => "null"
  | .jbool true => "true"
  | .jbool false => "false"
  | .jint n => intRepr n
  | .jstr s => dumpString s
  | .jarr xs => "[" ++ dumpArr xs ++ "]"
  | .jobj fs => "\x7b" ++ dumpObj fs ++ "\x7d"

/-- Comma-joined serialization of array elements. -/
def dumpArr : List JValue → String
  | [] => ""
  | [x] => jsonDumps x
  | x :: y :: rest => jsonDumps x ++ "," ++ dumpArr (y :: rest)

/-- Comma-joined serialization of object fields, `"key":value` each. -/
def dumpObj : List (String × JValue) → String
  | [] => ""
  | [(k, v)] => dumpString k ++ ":" ++ jsonDumps v
  | (k, v) :: f :: rest => dumpString k ++ ":" ++ jsonDumps v ++ "," ++ dumpObj (f :: rest)

end

/-- `XnoxsFetcher._build_message` / `WebSocketManager._build_message`:
the compact JSON text of the dictionary with keys `"m"` and `"p"`. -/
def buildMessage (funcName : String) (params : List JValue) : String :=
  jsonDumps (.jobj [("m", .jstr funcName), ("p", .jarr params)])

/-- `XnoxsFetcher._add_header` / `WebSocketManager._add_header`:
the frame is the f-string `~m~{len(message)}~m~{message}`, where Python
`len` counts characters. -/
def addHeader (message : String) : String :=
  "~m~" ++ toString message.length ++ "~m~" ++ message

/-- `XnoxsFetcher._create_ws_message` / `WebSocketManager.send_message`:
build then frame. -/
def createWsMessage (funcName : String) (params : List JValue) : String :=
  addHeader (buildMessage funcName params)

/-- The UTF-8 byte length of a string. -/
def utf8Length (s : String) : Nat := (s.data.map Char.utf8Size).sum

/-- A list of characters is ASCII when every code point is below 128. -/
def AllAscii (l : List Char) : Prop := ∀ c ∈ l, c.toNat < 128

instance (l : List Char) : Decidable (AllAscii l) :=
  List.decidableBAll _ l

theorem allAscii_append {l₁ l₂ : List Char} (h₁ : AllAscii l₁) (h₂ : AllAscii l₂) :
    AllAscii (l₁ ++ l₂) := by
  intro c hc
  rcases List.mem_append.mp hc with h | h
  · exact h₁ c h
  · exact h₂ c h

theorem digitChar10_ascii (n : Nat) : (digitChar10 n).toNat < 128 := by
  unfold digitChar10
  split <;> decide

theorem hexDigit_ascii (n : Nat) : (hexDigit n).toNat < 128 := by
  unfold hexDigit
  split
  · exact digitChar10_ascii n
  · split <;> [decide; (split <;> [decide; (split <;> [decide; (split <;> [decide; (split <;> decide)])])])]

theorem hex4_ascii (n : Nat) : AllAscii (hex4 n) := by
  intro c hc
  simp only [hex4, List.mem_cons, List.mem_singleton, List.not_mem_nil, or_false] at hc
  rcases hc with rfl | rfl | rfl | rfl <;> exact hexDigit_ascii _

theorem char_utf8Size_of_ascii (c : Char) (h : c.toNat < 128) : c.utf8Size = 1 := by
  unfold Char.utf8Size
  rw [if_pos]
  rw [UInt32.le_def, BitVec.le_def]
  exact Nat.le_of_lt_succ h

theorem allAscii_nil : AllAscii [] := by
  intro c hc
  cases hc

theorem allAscii_cons {c : Char} {l : List Char} (h₁ : c.toNat < 128)
    (h₂ : AllAscii l) : AllAscii (c :: l) := by
  intro x hx
  rcases List.mem_cons.mp hx with rfl | hx
  · exact h₁
  · exact h₂ x hx

theorem hexEsc_ascii (n : Nat) : AllAscii ('\\' :: 'u' :: hex4 n) :=
  allAscii_cons (by decide) (allAscii_cons (by decide) (hex4_ascii n))

theorem escapeChar_ascii (c : Char) : AllAscii (escapeChar c) := by
  unfold escapeChar
  repeat' split
  · decide
  · decide
  · decide
  · decide
  · decide
  · decide
  · decide
  · rename_i hrange
    intro x hx
    rcases List.mem_singleton.mp hx with rfl
    omega
  · exact hexEsc_ascii _
  · exact allAscii_append (hexEsc_ascii _) (hexEsc_ascii _)

theorem allAscii_flatMap {f : Char → List Char} (hf : ∀ a, AllAscii (f a))
    (l : List Char) : AllAscii (l.flatMap f) := by
  intro x hx
  rcases List.mem_flatMap.mp hx with ⟨a, _, hxa⟩
  exact hf a x hxa

theorem dumpString_ascii (s : String) : AllAscii (dumpString s).data :=
  allAscii_cons (by decide)
    (allAscii_append (allAscii_flatMap escapeChar_ascii s.data)
      (allAscii_cons (by decide) allAscii_nil))

theorem natReprGo_ascii (fuel : Nat) : ∀ n acc, AllAscii acc →
    AllAscii (natReprGo fuel n acc) := by
  induction fuel with
  | zero => intro n acc h; exact h
  | succ f ih =>
    intro n acc h
    unfold natReprGo
    split
    · exact allAscii_cons (digitChar10_ascii n) h
    · exact ih _ _ (allAscii_cons (digitChar10_ascii _) h)

theorem natRepr_ascii (n : Nat) : AllAscii (natRepr n).data :=
  natReprGo_ascii _ _ _ allAscii_nil

theorem intRepr_ascii (n : Int) : AllAscii (intRepr n).data := by
  unfold intRepr
  split
  · rw [String.data_append]
    exact allAscii_append (allAscii_cons (by decide) allAscii_nil) (natRepr_ascii _)
  · exact natRepr_ascii _

mutual

theorem jsonDumps_ascii : ∀ v : JValue, AllAscii (jsonDumps v).data
  | .jnull => by intro c hc; simp only [jsonDumps] at hc; fin_cases hc <;> decide
  | .jbool true => by intro c hc; simp only [jsonDumps] at hc; fin_cases hc <;> decide
  | .jbool false => by intro c hc; simp only [jsonDumps] at hc; fin_cases hc <;> decide
  | .jint n => by simpa only [jsonDumps] using intRepr_ascii n
  | .jstr s => by simpa only [jsonDumps] using dumpString_ascii s
  | .jarr xs => by
    simp only [jsonDumps, String.data_append]
    exact allAscii_append (allAscii_append (by decide) (dumpArr_ascii xs)) (by decide)
  | .jobj fs => by
    simp only [jsonDumps, String.data_append]
    exact allAscii_append (allAscii_append (by decide) (dumpObj_ascii fs)) (by decide)

theorem dumpArr_ascii : ∀ xs : List JValue, AllAscii (dumpArr xs).data
  | [] => by intro c hc; simp only [dumpArr] at hc; cases hc
  | [x] => by simpa only [dumpArr] using jsonDumps_ascii x
  | x :: y :: rest => by
    simp only [dumpArr, String.data_append]
    exact allAscii_append (allAscii_append (jsonDumps_ascii x) (by decide))
      (dumpArr_ascii (y :: rest))

theorem dumpObj_ascii : ∀ fs : List (String × JValue), AllAscii (dumpObj fs).data
  | [] => by intro c hc; simp only [dumpObj] at hc; cases hc
  | [(k, v)] => by
    simp only [dumpObj, String.data_append]
    exact allAscii_append (allAscii_append (dumpString_ascii k) (by decide))
      (jsonDumps_ascii v)
  | (k, v) :: f :: rest => by
    simp only [dumpObj, String.data_append]
    exact allAscii_append
      (allAscii_append
        (allAscii_append (allAscii_append (dumpString_ascii k) (by decide))
          (jsonDumps_ascii v))
        (by decide))
      (dumpObj_ascii (f :: rest))

end

theorem sum_utf8Size_of_ascii : ∀ l : List Char, AllAscii l →
    (l.map Char.utf8Size).sum = l.length := by
  intro l
  induction l with
  | nil => intro _; rfl
  | cons c cs ih =>
    intro h
    simp only [List.map_cons, List.sum_cons, List.length_cons,
      char_utf8Size_of_ascii c (h c (List.mem_cons_self c cs)),
      ih (fun x hx => h x (List.mem_cons_of_mem c hx))]
    omega

theorem utf8Length_eq_length_of_ascii (s : String) (h : AllAscii s.data) :
    utf8Length s = s.length := by
  unfold utf8Length
  rw [sum_utf8Size_of_ascii s.data h]
  rfl

/-- C9: for every `TimeFrame` member `t`, `from_string(t.value)` returns `t`
(the conversion is a left inverse of the enum's wire value), and
`from_string` raises `ValueError` (modelled by `none`) exactly for strings
outside its accepted alias set (the keys of its mapping). -/
theorem timeframe_fromString_roundtrip :
    (∀ t : TimeFrame, fromString (tfValue t) = some t) ∧
    (∀ s : String, fromString s = none ↔ ¬ s ∈ aliasSet) := by
  constructor
  · intro t
    cases t <;> rfl
  · intro s
    exact lookup_eq_none_iff fromStringMapping s

/-- C7: for every command name and parameter list, the encoded outbound
message is exactly `~m~<N>~m~<json>`, where `<json>` is the compact
(`separators=(",", ":")`, so no extraneous whitespace) JSON serialization of
the dictionary with keys `"m"` (the name) and `"p"` (the params), and `<N>`
is the exact UTF-8 byte length of `<json>`.  (The source interpolates
`len(message)`, a character count; because `json.dumps` defaults to
`ensure_ascii=True`, the serialized text is pure ASCII and the character
count equals the byte count.) -/
theorem encode_command_frame (funcName : String) (params : List JValue) :
    createWsMessage funcName params =
      "~m~" ++ toString (utf8Length (buildMessage funcName params)) ++ "~m~" ++
        buildMessage funcName params := by
  unfold createWsMessage addHeader
  rw [utf8Length_eq_length_of_ascii _
    (by simpa only [buildMessage] using jsonDumps_ascii (.jobj [("m", .jstr funcName), ("p", .jarr params)]))]

/-- C10: in `get_historical_data` the wire symbol is
`_format_symbol(symbol, exchange, futures_contract)`: when the symbol
contains a colon it is used verbatim and both the exchange and the contract
are ignored; otherwise the result is `exchange:symbol`, with
`str(contract) + "!"` appended when an integer futures contract is given. -/
theorem format_symbol_spec (sym e1 e2 : String) (c1 c2 : Option Int) :
    (sym.data.contains ':' = true →
      formatSymbol sym e1 c1 = sym ∧
        formatSymbol sym e1 c1 = formatSymbol sym e2 c2) ∧
    (sym.data.contains ':' = false →
      formatSymbol sym e1 c1 =
        (match c1 with
         | none => e1 ++ ":" ++ sym
         | some n => e1 ++ ":" ++ sym ++ intRepr n ++ "!")) := by
  constructor
  · intro h
    have hm : ':' ∈ sym.data := by simpa using h
    simp [formatSymbol, hm]
  · intro h
    have hm : ¬ ':' ∈ sym.data := by simpa using h
    cases c1 <;> simp [formatSymbol, hm]

/-- Witness for `format_symbol_spec` at concrete inputs. -/
theorem format_symbol_spec_witness :
    formatSymbol "NASDAQ:AAPL" "NSE" (some 1) = "NASDAQ:AAPL" ∧
    formatSymbol "NIFTY" "NSE" (some 1) = "NSE" ++ ":" ++ "NIFTY" ++ intRepr 1 ++ "!" :=
  ⟨((format_symbol_spec "NASDAQ:AAPL" "NSE" "BINANCE" (some 1) none).1 (by decide)).1,
   (format_symbol_spec "NIFTY" "NSE" "BINANCE" (some 1) none).2 (by decide)⟩

/-! ## `WebSocketManager` (`websocket_manager.py`)

State and operations of the connection manager.  The physical socket is
reduced to `wsOpen : Bool` (whether `self._ws` is not `None`); the outcome
of each `create_connection` call is an oracle (`openOk` per call, or
`openOks : Nat → Bool` indexed by reconnect attempt); `time.sleep` calls
are recorded as the returned list of slept delays (in seconds, as exact
rationals — the Python floats `1.0 * 2**attempt` and `30.0` are exact). -/

inductive ConnectionState where
  | DISCONNECTED | CONNECTING | CONNECTED | RECONNECTING | CLOSED
  deriving DecidableEq, Repr

/-- The reconnect-relevant fields of `WebSocketConfig`. -/
structure WebSocketConfig where
  maxReconnectAttempts : Nat
  reconnectDelay : ℚ
  reconnectDelayMax : ℚ
  deriving DecidableEq, Repr

/-- The state-machine-relevant fields of a `WebSocketManager` instance. -/
structure WSManager where
  state : ConnectionState
  reconnectCount : Nat
  wsOpen : Bool
  deriving DecidableEq, Repr

/-- `WebSocketManager.connect` (lines 122-158): no-op when already
connected; otherwise enters `CONNECTING`, then `CONNECTED` on a successful
open or back to `DISCONNECTED` on failure. -/
def connect (m : WSManager) (openOk : Bool) : Bool × WSManager :=
  if m.state = ConnectionState.CONNECTED then (true, m)
  else
    let m := {m with state := ConnectionState.CONNECTING}
    if openOk then
      (true, {m with state := ConnectionState.CONNECTED, reconnectCount := 0, wsOpen := true})
    else (false, {m with state := ConnectionState.DISCONNECTED})

/-- `WebSocketManager.disconnect` (lines 160-173): closes the socket and
enters the terminal `CLOSED` state. -/
def disconnect (m : WSManager) : WSManager :=
  {m with wsOpen := false, state := ConnectionState.CLOSED}

/-- The attempt loop of `WebSocketManager.reconnect` (lines 188-216):
for each attempt, set the counter, sleep `min(delay * 2^attempt, delay_max)`,
drop any existing socket, and try `connect`; after the last failed attempt
fall back to `DISCONNECTED`.  The third component records the slept delays
in order (one sleep before every attempt, including the first). -/
def reconnectGo (cfg : WebSocketConfig) (openOks : Nat → Bool) :
    WSManager → Nat → Nat → Bool × WSManager × List ℚ
  | m, _, 0 => (false, {m with state := ConnectionState.DISCONNECTED}, [])
  | m, attempt, rem + 1 =>
    let m := {m with reconnectCount := attempt + 1}
    let delay := min (cfg.reconnectDelay * 2 ^ attempt) cfg.reconnectDelayMax
    let m := if m.wsOpen then {m with wsOpen := false} else m
    match connect m (openOks attempt) with
    | (true, m) => (true, m, [delay])
    | (false, m) =>
      let r := reconnectGo cfg openOks m (attempt + 1) rem
      (r.1, r.2.1, delay :: r.2.2)

/-- `WebSocketManager.reconnect` (lines 175-216): refuses to run from
`CLOSED`; otherwise enters `RECONNECTING` and runs the attempt loop. -/
def reconnect (cfg : WebSocketConfig) (m : WSManager) (openOks : Nat → Bool) :
    Bool × WSManager × List ℚ :=
  if m.state = ConnectionState.CLOSED then (false, m, [])
  else
    reconnectGo cfg openOks {m with state := ConnectionState.RECONNECTING} 0
      cfg.maxReconnectAttempts

/-- `WebSocketManager.send` (lines 250-271): attempts a reconnect first when
not connected; `sendOk` is the oracle for whether the raw socket send
raises. -/
def send (cfg : WebSocketConfig) (m : WSManager) (openOks : Nat → Bool)
    (sendOk : Bool) : Bool × WSManager :=
  if m.state ≠ ConnectionState.CONNECTED ∨ m.wsOpen = false then
    match reconnect cfg m openOks with
    | (false, m, _) => (false, m)
    | (true, m, _) => if sendOk then (true, m) else (false, m)
  else if sendOk then (true, m) else (false, m)

/-- `WebSocketManager.receive` (lines 298-328): attempts a reconnect first
when not connected; `recvResult` is the oracle for what `self._ws.recv()`
returns (`none` models a raised `WebSocketException`). -/
def receive (cfg : WebSocketConfig) (m : WSManager) (openOks : Nat → Bool)
    (recvResult : Option String) : Option String × WSManager :=
  if m.state ≠ ConnectionState.CONNECTED ∨ m.wsOpen = false then
    match reconnect cfg m openOks with
    | (false, m, _) => (none, m)
    | (true, m, _) => (recvResult, m)
  else (recvResult, m)

/-- C3 counterexample: with `max_reconnect_attempts=3`, `reconnect_delay=1.0`
and a socket whose open always fails, the delays slept before the 2nd and
3rd connection attempts are `2.0` and `4.0` seconds, not `1.0` and `2.0` as
claimed (the loop sleeps `min(1.0 * 2^attempt, 30.0)` before every attempt,
including the first). -/
theorem reconnect_delays_claim_false :
    ¬ ((reconnect ⟨3, 1, 30⟩ ⟨ConnectionState.RECONNECTING, 0, true⟩
          (fun _ => false)).2.2[1]? = some 1 ∧
       (reconnect ⟨3, 1, 30⟩ ⟨ConnectionState.RECONNECTING, 0, true⟩
          (fun _ => false)).2.2[2]? = some 2) := by
  simp +decide [reconnect, reconnectGo, connect, min_def]

/-- C3 (amended): with `max_reconnect_attempts=3`, `reconnect_delay=1.0`,
`reconnect_delay_max=30.0` and a socket whose open always fails, `reconnect()`
from any non-`Closed` state makes exactly 3 connection attempts; a backoff
delay of `min(1.0 * 2^attempt, 30.0)` seconds is slept before every attempt
(so `1.0, 2.0, 4.0` before the 1st, 2nd and 3rd attempts); it returns false
and leaves the final state `Disconnected` with the attempt counter at 3. -/
theorem reconnect_three_attempts_backoff (m : WSManager)
    (h : m.state ≠ ConnectionState.CLOSED) :
    reconnect ⟨3, 1, 30⟩ m (fun _ => false) =
      (false, ⟨ConnectionState.DISCONNECTED, 3, false⟩, [1, 2, 4]) ∧
    (reconnect ⟨3, 1, 30⟩ m (fun _ => false)).2.2.length = 3 := by
  obtain ⟨st, rc, ws⟩ := m
  unfold reconnect
  rw [if_neg h]
  cases ws <;> simp +decide [reconnectGo, connect, min_def]

/-- Witness for `reconnect_three_attempts_backoff` at a concrete manager. -/
theorem reconnect_three_attempts_backoff_witness :
    reconnect ⟨3, 1, 30⟩ ⟨ConnectionState.RECONNECTING, 0, true⟩ (fun _ => false) =
      (false, ⟨ConnectionState.DISCONNECTED, 3, false⟩, [1, 2, 4]) ∧
    (reconnect ⟨3, 1, 30⟩ ⟨ConnectionState.RECONNECTING, 0, true⟩
        (fun _ => false)).2.2.length = 3 :=
  reconnect_three_attempts_backoff ⟨ConnectionState.RECONNECTING, 0, true⟩ (by decide)

/-- C4 counterexample: calling `connect()` from the `Closed` state does not
leave the state `Closed`: with a failing open it transitions through
`Connecting` to `Disconnected`. -/
theorem closed_connect_transitions_counterexample :
    (connect ⟨ConnectionState.CLOSED, 0, false⟩ false).2.state =
        ConnectionState.DISCONNECTED ∧
    ¬ (connect ⟨ConnectionState.CLOSED, 0, false⟩ false).2.state =
        ConnectionState.CLOSED := by
  decide

/-- C4 (amended): once the state is `Closed` (after an explicit
`disconnect()`), `reconnect()` refuses to run — it returns false, makes no
connection attempt (no backoff sleep occurs) and leaves the manager
unchanged — and `send`/`receive` (which only ever try `reconnect`, never
`connect`) fail and leave the state `Closed`.  An explicit `connect()` call,
however, does leave `Closed` (see the counterexample). -/
theorem closed_state_terminal (cfg : WebSocketConfig) (m : WSManager)
    (openOks : Nat → Bool) (sendOk : Bool) (recvResult : Option String)
    (h : m.state = ConnectionState.CLOSED) :
    reconnect cfg m openOks = (false, m, []) ∧
    send cfg m openOks sendOk = (false, m) ∧
    receive cfg m openOks recvResult = (none, m) := by
  have h1 : reconnect cfg m openOks = (false, m, []) := by
    unfold reconnect
    rw [if_pos h]
  have hne : m.state ≠ ConnectionState.CONNECTED ∨ m.wsOpen = false :=
    Or.inl (by simp [h])
  refine ⟨h1, ?_, ?_⟩
  · unfold send
    rw [if_pos hne, h1]
  · unfold receive
    rw [if_pos hne, h1]

/-- Witness for `closed_state_terminal` at a concrete manager. -/
theorem closed_state_terminal_witness :
    reconnect ⟨5, 1, 30⟩ ⟨ConnectionState.CLOSED, 2, false⟩ (fun _ => true) =
      (false, ⟨ConnectionState.CLOSED, 2, false⟩, []) ∧
    send ⟨5, 1, 30⟩ ⟨ConnectionState.CLOSED, 2, false⟩ (fun _ => true) true =
      (false, ⟨ConnectionState.CLOSED, 2, false⟩) ∧
    receive ⟨5, 1, 30⟩ ⟨ConnectionState.CLOSED, 2, false⟩ (fun _ => true)
        (some "~h~1") =
      (none, ⟨ConnectionState.CLOSED, 2, false⟩) :=
  closed_state_terminal ⟨5, 1, 30⟩ ⟨ConnectionState.CLOSED, 2, false⟩
    (fun _ => true) true (some "~h~1") rfl

/-! ## Bar-record parsing (`XnoxsFetcher._parse_raw_data`, `core.py` lines 300-350)

After locating the `"s":[...]` payload and splitting it into per-record
part lists (pure string plumbing, quantified over here as
`rows : List (List String)`), the source extracts, per record, a timestamp
from `parts[4]` and five numeric fields from `parts[5..9]`
(open/high/low/close/volume).  A `float(...)` call that raises
`ValueError`, or an out-of-range index raising `IndexError`, is caught for
the five fields: the field becomes `0.0` and the `has_volume` latch is
cleared, after which the volume field (index 9) is never attempted again.
A failing timestamp is an uncaught exception (hard failure), modelled by
`none`.  Numeric values are modelled as `ℚ`, the Python `float(...)` parser
as an oracle `pf : String → Option ℚ` (the claims verified here do not
depend on which strings parse). -/

/-- One iteration of the `for idx in range(5, 10)` field loop: state is the
record built so far plus the `has_volume` latch. -/
def fieldStep (pf : String → Option ℚ) (parts : List String)
    (st : List ℚ × Bool) (idx : Nat) : List ℚ × Bool :=
  if st.2 = false ∧ idx = 9 then (st.1 ++ [0], st.2)
  else
    match (parts[idx]?).bind pf with
    | some x => (st.1 ++ [x], st.2)
    | none => (st.1 ++ [0], false)

/-- One record of the `for row in rows` loop: timestamp from `parts[4]`
(a failure here propagates), then the five fields.  Returns the record
(timestamp, field list) and the updated `has_volume` latch. -/
def parseRecord (pf : String → Option ℚ) (hasVolume : Bool)
    (parts : List String) : Option ((ℚ × List ℚ) × Bool) :=
  match (parts[4]?).bind pf with
  | none => none
  | some ts =>
    let r := [5, 6, 7, 8, 9].foldl (fieldStep pf parts) ([], hasVolume)
    some ((ts, r.1), r.2)

/-- The whole record loop, threading the `has_volume` latch through the rows. -/
def parseRowsGo (pf : String → Option ℚ) (hasVolume : Bool) :
    List (List String) → Option (List (ℚ × List ℚ))
  | [] => some []
  | parts :: rest =>
    match parseRecord pf hasVolume parts with
    | none => none
    | some (r0, hv) =>
      match parseRowsGo pf hv rest with
      | none => none
      | some recs => some (r0 :: recs)

/-- `_parse_raw_data`'s record loop on the split rows (`has_volume` starts
`True`). -/
def parseRows (pf : String → Option ℚ) (rows : List (List String)) :
    Option (List (ℚ × List ℚ)) :=
  parseRowsGo pf true rows

theorem fieldStep_length (pf : String → Option ℚ) (parts : List String)
    (st : List ℚ × Bool) (idx : Nat) :
    (fieldStep pf parts st idx).1.length = st.1.length + 1 := by
  unfold fieldStep
  split
  · simp
  · split <;> simp

theorem fieldStep_hv_false (pf : String → Option ℚ) (parts : List String)
    (st : List ℚ × Bool) (idx : Nat) (h : st.2 = false) :
    (fieldStep pf parts st idx).2 = false := by
  unfold fieldStep
  split
  · exact h
  · split
    · exact h
    · rfl

theorem foldl_fieldStep_length (pf : String → Option ℚ) (parts : List String) :
    ∀ (idxs : List Nat) (st : List ℚ × Bool),
      (idxs.foldl (fieldStep pf parts) st).1.length = st.1.length + idxs.length := by
  intro idxs
  induction idxs with
  | nil => intro st; simp
  | cons i rest ih =>
    intro st
    simp only [List.foldl_cons, ih, fieldStep_length, List.length_cons]
    omega

/-- After the field loop, if the volume part is absent/unparsable or the
latch was already cleared, the record's fifth field (the volume) is `0`
and the latch is cleared. -/
theorem foldl_fieldStep_volume_zero (pf : String → Option ℚ)
    (parts : List String) (hv : Bool)
    (h : (parts[9]?).bind pf = none ∨ hv = false) :
    (([5, 6, 7, 8, 9].foldl (fieldStep pf parts) ([], hv)).1[4]? = some 0) ∧
    ([5, 6, 7, 8, 9].foldl (fieldStep pf parts) ([], hv)).2 = false := by
  have hsplit : [5, 6, 7, 8, 9].foldl (fieldStep pf parts) ([], hv) =
      fieldStep pf parts ([5, 6, 7, 8].foldl (fieldStep pf parts) ([], hv)) 9 := by
    rfl
  set st4 := [5, 6, 7, 8].foldl (fieldStep pf parts) ([], hv) with hst4
  have hlen : st4.1.length = 4 := by
    rw [hst4, foldl_fieldStep_length]
    rfl
  have hfalse : hv = false → st4.2 = false := by
    intro hhv
    rw [hst4]
    have : ∀ (idxs : List Nat) (st : List ℚ × Bool), st.2 = false →
        (idxs.foldl (fieldStep pf parts) st).2 = false := by
      intro idxs
      induction idxs with
      | nil => intro st h'; exact h'
      | cons i rest ih =>
        intro st h'
        exact ih _ (fieldStep_hv_false pf parts st i h')
    exact this _ _ hhv
  have hlast : ∀ l : List ℚ, l.length = 4 → (l ++ [(0 : ℚ)])[4]? = some 0 := by
    intro l hl
    rw [List.getElem?_append_right (by omega)]
    simp [hl]
  rw [hsplit]
  rcases Bool.eq_false_or_eq_true st4.2 with h2 | h2
  · rcases h with h | h
    · constructor
      · unfold fieldStep
        rw [if_neg (by simp [h2]), h]
        exact hlast _ hlen
      · unfold fieldStep
        rw [if_neg (by simp [h2]), h]
    · rw [hfalse h] at h2
      cases h2
  · constructor
    · unfold fieldStep
      rw [if_pos ⟨h2, rfl⟩]
      exact hlast _ hlen
    · exact fieldStep_hv_false pf parts st4 9 h2


theorem parseRecord_some (pf : String → Option ℚ) (hv : Bool)
    (parts : List String) (hts : ((parts[4]?).bind pf).isSome) :
    ∃ ts, parseRecord pf hv parts =
      some ((ts, ([5, 6, 7, 8, 9].foldl (fieldStep pf parts) ([], hv)).1),
        ([5, 6, 7, 8, 9].foldl (fieldStep pf parts) ([], hv)).2) := by
  unfold parseRecord
  rcases Option.isSome_iff_exists.mp hts with ⟨ts, hts'⟩
  rw [hts']
  exact ⟨ts, rfl⟩

/-- Once the `has_volume` latch is cleared, every remaining record parses
(provided its timestamp does) and carries volume `0`. -/
theorem parseRowsGo_false (pf : String → Option ℚ) :
    ∀ rows : List (List String),
      (∀ r ∈ rows, ((r[4]?).bind pf).isSome) →
      ∃ bars, parseRowsGo pf false rows = some bars ∧
        bars.length = rows.length ∧
        ∀ (j : Nat) (b : ℚ × List ℚ), bars[j]? = some b → b.2[4]? = some 0 := by
  intro rows
  induction rows with
  | nil =>
    intro _
    exact ⟨[], rfl, rfl, by intro j b hb; simp at hb⟩
  | cons parts rest ih =>
    intro hts
    rcases parseRecord_some pf false parts
        (hts parts (List.mem_cons_self parts rest)) with ⟨ts, hrec⟩
    rcases ih (fun r hr => hts r (List.mem_cons_of_mem parts hr)) with
      ⟨bars, hbars, hlen, hvol⟩
    have hz := foldl_fieldStep_volume_zero pf parts false (Or.inr rfl)
    refine ⟨(ts, ([5, 6, 7, 8, 9].foldl (fieldStep pf parts) ([], false)).1) :: bars,
      ?_, by simp [hlen], ?_⟩
    · simp only [parseRowsGo, hrec, hz.2, hbars]
    · intro j b hb
      match j with
      | 0 =>
        simp only [List.getElem?_cons_zero, Option.some.injEq] at hb
        rw [← hb]
        exact hz.1
      | j' + 1 =>
        rw [List.getElem?_cons_succ] at hb
        exact hvol j' b hb

/-- The record loop from an arbitrary latch state: if some row's volume
field is absent or unparsable (and all timestamps parse), the whole parse
still succeeds and that row and every later row carry volume `0`. -/
theorem parseRowsGo_volume_fallback (pf : String → Option ℚ) :
    ∀ (rows : List (List String)) (k : Nat) (parts : List String) (hv : Bool),
      (∀ r ∈ rows, ((r[4]?).bind pf).isSome) →
      rows[k]? = some parts →
      (parts[9]?).bind pf = none →
      ∃ bars, parseRowsGo pf hv rows = some bars ∧
        bars.length = rows.length ∧
        ∀ (j : Nat), k ≤ j → ∀ (b : ℚ × List ℚ), bars[j]? = some b →
          b.2[4]? = some 0 := by
  intro rows
  induction rows with
  | nil =>
    intro k parts hv _ hk _
    simp at hk
  | cons p rest ih =>
    intro k parts hv hts hk hvol
    match k with
    | 0 =>
      simp only [List.getElem?_cons_zero, Option.some.injEq] at hk
      subst hk
      rcases parseRecord_some pf hv p
          (hts p (List.mem_cons_self p rest)) with ⟨ts, hrec⟩
      have hz := foldl_fieldStep_volume_zero pf p hv (Or.inl hvol)
      rcases parseRowsGo_false pf rest
          (fun r hr => hts r (List.mem_cons_of_mem p hr)) with
        ⟨bars, hbars, hlen, hvolrest⟩
      refine ⟨(ts, ([5, 6, 7, 8, 9].foldl (fieldStep pf p) ([], hv)).1) :: bars,
        ?_, by simp [hlen], ?_⟩
      · simp only [parseRowsGo, hrec, hz.2, hbars]
      · intro j _ b hb
        match j with
        | 0 =>
          simp only [List.getElem?_cons_zero, Option.some.injEq] at hb
          rw [← hb]
          exact hz.1
        | j' + 1 =>
          rw [List.getElem?_cons_succ] at hb
          exact hvolrest j' b hb
    | k' + 1 =>
      rw [List.getElem?_cons_succ] at hk
      rcases parseRecord_some pf hv p (hts p (List.mem_cons_self p rest)) with ⟨ts, hrec⟩
      rcases ih k' parts ([5, 6, 7, 8, 9].foldl (fieldStep pf p) ([], hv)).2
          (fun r hr => hts r (List.mem_cons_of_mem p hr)) hk hvol with
        ⟨bars, hbars, hlen, hvolrest⟩
      refine ⟨(ts, ([5, 6, 7, 8, 9].foldl (fieldStep pf p) ([], hv)).1) :: bars,
        ?_, by simp [hlen], ?_⟩
      · simp only [parseRowsGo, hrec, hbars]
      · intro j hj b hb
        match j with
        | 0 => omega
        | j' + 1 =>
          rw [List.getElem?_cons_succ] at hb
          exact hvolrest j' (by omega) b hb

/-- C8: for every raw response whose series payload parses (the rows split
out and every record's timestamp extractable), if the volume field of some
record is absent or unparsable, the parse does not fail: a bar sequence of
the same length is still returned, and that record and every subsequent
record carry volume `0.0`. -/
theorem parse_volume_fallback (pf : String → Option ℚ)
    (rows : List (List String)) (k : Nat) (parts : List String)
    (hts : ∀ r ∈ rows, ((r[4]?).bind pf).isSome)
    (hk : rows[k]? = some parts)
    (hvol : (parts[9]?).bind pf = none) :
    ∃ bars, parseRows pf rows = some bars ∧
      bars.length = rows.length ∧
      ∀ (j : Nat), k ≤ j → ∀ (b : ℚ × List ℚ), bars[j]? = some b →
        b.2[4]? = some 0 :=
  parseRowsGo_volume_fallback pf rows k parts true hts hk hvol

/-- A sample numeric parser (decimal digit strings) used only to
instantiate the field-parser oracle in the witness below. -/
def decParse (s : String) : Option ℚ :=
  if s.data ≠ [] ∧ s.data.all Char.isDigit then
    some (s.data.foldl (fun n c => n * 10 + ((c.toNat : ℚ) - 48)) 0)
  else none

/-- Witness for `parse_volume_fallback`: two records, the second lacking a
volume part. -/
theorem parse_volume_fallback_witness :
    ∃ bars,
      parseRows decParse
        [["lbl", "s", "v", "i", "100", "7", "9", "6", "8", "5"],
         ["lbl", "s", "v", "i", "160", "8", "9", "7", "8"]] = some bars ∧
      bars.length = 2 ∧
      ∀ (j : Nat), 1 ≤ j → ∀ (b : ℚ × List ℚ), bars[j]? = some b →
        b.2[4]? = some 0 :=
  parse_volume_fallback decParse
    [["lbl", "s", "v", "i", "100", "7", "9", "6", "8", "5"],
     ["lbl", "s", "v", "i", "160", "8", "9", "7", "8"]] 1
    ["lbl", "s", "v", "i", "160", "8", "9", "7", "8"]
    (by decide) (by decide) (by decide)

/-! ## `IntervalTracker` and the live feed (`live_feed.py`, `models.py`)

The scheduler state.  `datetime` values are integer minutes.  Buckets are
kept as an ordered association list (Python dicts preserve insertion
order); bucket keys are the `TimeFrame` of the member sets — the source
keys the dict by `seis.interval.value`, and `tfValue` is injective over the
enum, so this is the same keying.  A `SymbolSet` carries a numeric `sid`
modelling Python object identity; `seisEq` models `SymbolSet.__eq__`
(symbol/exchange/interval equality).  A `DataConsumer` is reduced to its
queue: `enqueue(data)` appends `some t` (the delivered bar's timestamp),
`stop()` appends the `none` stop sentinel. -/

/-- `RETRY_LIMIT` (`live_feed.py` line 26). -/
def RETRY_LIMIT : Nat := 50

/-- `IntervalTracker._TIMEFRAME_DELTAS` in minutes.
(`relativedelta(months=1)` is calendar arithmetic; it is modelled as a
fixed 30 days, a value no theorem depends on.) -/
def timeframeDelta : TimeFrame → Int
  | .MINUTE_1 => 1
  | .MINUTE_3 => 3
  | .MINUTE_5 => 5
  | .MINUTE_15 => 15
  | .MINUTE_30 => 30
  | .MINUTE_45 => 45
  | .HOUR_1 => 60
  | .HOUR_2 => 120
  | .HOUR_3 => 180
  | .HOUR_4 => 240
  | .DAILY => 1440
  | .WEEKLY => 10080
  | .MONTHLY => 43200

/-- A `DataConsumer`'s delivery queue (`models.py`): `none` is the stop
sentinel, `some t` a delivered one-bar frame abstracted to its timestamp. -/
structure DC where
  buf : List (Option Int)
  deriving DecidableEq, Repr

/-- The live-feed-relevant state of a `SymbolSet` (`models.py`): its
identity key `(sym, exch, interval)`, the `_last_update` timestamp used by
`is_new_data`, its registered consumers, and an instance-identity tag. -/
structure SymSet where
  sid : Nat
  sym : String
  exch : String
  interval : TimeFrame
  lastUpdate : Option Int
  consumers : List DC
  deriving DecidableEq, Repr

/-- `SymbolSet.__eq__`: equality of symbol, exchange and interval. -/
def seisEq (a b : SymSet) : Bool :=
  a.sym == b.sym && a.exch == b.exch && a.interval == b.interval

/-- One value of the `IntervalTracker` dict: the member list and the
bucket's `next_trigger` time. -/
structure Bucket where
  key : TimeFrame
  members : List SymSet
  trigger : Int
  deriving DecidableEq, Repr

/-- The `IntervalTracker` state: the dict (ordered buckets), the
`_shutdown_flag`, the `threading.Event` `_interrupt_event` (its set/clear
state) and the cached `_next_trigger`. -/
structure Tracker where
  buckets : List Bucket
  shutdownFlag : Bool
  interruptSet : Bool
  nextTrigger : Option Int
  deriving DecidableEq, Repr

/-- A fresh `IntervalTracker` (`__init__`, lines 53-57). -/
def initialTracker : Tracker :=
  { buckets := [], shutdownFlag := false, interruptSet := false, nextTrigger := none }

/-- `IntervalTracker._calculate_next_trigger` (lines 59-66): the soonest
trigger across buckets (the source sorts the trigger list and takes the
head), `none` when the dict is empty. -/
def calculateNextTrigger (buckets : List Bucket) : Option Int :=
  match buckets.map Bucket.trigger with
  | [] => none
  | t :: ts => some (ts.foldl min t)

/-- Dict lookup by interval key. -/
def lookupBucket (buckets : List Bucket) (k : TimeFrame) : Option Bucket :=
  buckets.find? (fun b => b.key == k)

/-- Replace the member list of the bucket with key `k`. -/
def setBucketMembers (buckets : List Bucket) (k : TimeFrame) (ms : List SymSet) :
    List Bucket :=
  buckets.map (fun b => if b.key == k then { b with members := ms } else b)

/-- `dict.pop(k)`: drop the bucket with key `k`. -/
def eraseBucket (buckets : List Bucket) (k : TimeFrame) : List Bucket :=
  buckets.filter (fun b => !(b.key == k))

/-- `IntervalTracker.__iter__` (lines 178-183): all member sets, chained in
bucket order. -/
def allSeis (tr : Tracker) : List SymSet :=
  tr.buckets.flatMap Bucket.members

/-- `IntervalTracker.__contains__` (lines 185-190). -/
def containsSeis (tr : Tracker) (s : SymSet) : Bool :=
  (allSeis tr).any (fun m => seisEq m s)

/-- `IntervalTracker.find_symbol_set` (lines 68-82): first member matching
the triple, in iteration order. -/
def findSymbolSet (tr : Tracker) (sym exch : String) (interval : TimeFrame) :
    Option SymSet :=
  (allSeis tr).find? (fun m => m.sym == sym && m.exch == exch && m.interval == interval)

/-- Python `list.remove(x)`: drop the first element equal (`seisEq`) to `s`;
`none` models the raised `ValueError` when no element matches. -/
def removeFirstSeis (s : SymSet) : List SymSet → Option (List SymSet)
  | [] => none
  | m :: ms =>
    if seisEq m s then some ms
    else (removeFirstSeis s ms).map (fun r => m :: r)

/-- The dict-update phase of `IntervalTracker.add_symbol_set` (lines
138-152): append to an existing interval group, or create a new bucket
(raising `ValueError`, the `Bool` flag, when `update_time` is missing) and
recompute the cached wake time, interrupting the wait if it changed. -/
def addSymbolSetCore (tr : Tracker) (s : SymSet) (updateTime : Option Int) :
    Tracker × Bool :=
  match lookupBucket tr.buckets s.interval with
  | some b => ({ tr with buckets := setBucketMembers tr.buckets s.interval (b.members ++ [s]) }, false)
  | none =>
    match updateTime with
    | none => (tr, true)
    | some t =>
      let tr2 := { tr with
        buckets := tr.buckets ++ [{ key := s.interval, members := [s], trigger := t + timeframeDelta s.interval }] }
      let calculated := calculateNextTrigger tr2.buckets
      if calculated ≠ tr2.nextTrigger then
        ({ tr2 with nextTrigger := calculated, interruptSet := true }, false)
      else (tr2, false)

/-- The flag-reset phase of `add_symbol_set` (lines 134-136): when the dict
is nonempty, clear the shutdown flag and the interrupt event. -/
def addFlagReset (tr : Tracker) : Tracker :=
  if tr.buckets ≠ [] then { tr with shutdownFlag := false, interruptSet := false } else tr

/-- `IntervalTracker.add_symbol_set` (lines 128-152): the flag reset, then
the dict update.  Mutations preceding a raise are kept, as in Python. -/
def addSymbolSet (tr : Tracker) (s : SymSet) (updateTime : Option Int) :
    Tracker × Bool :=
  addSymbolSetCore (addFlagReset tr) s updateTime

/-- `IntervalTracker.remove_symbol_set` (lines 154-168).  The `Bool` is the
"raised" flag (`KeyError` when the set is not tracked, or dict/list lookup
failures on malformed state). -/
def removeSymbolSetT (tr : Tracker) (s : SymSet) : Tracker × Bool :=
  if ¬ containsSeis tr s then (tr, true)
  else
    match lookupBucket tr.buckets s.interval with
    | none => (tr, true)
    | some b =>
      match removeFirstSeis s b.members with
      | none => (tr, true)
      | some ms =>
        if ms = [] then
          let tr := { tr with buckets := eraseBucket tr.buckets s.interval }
          let calculated := calculateNextTrigger tr.buckets
          if calculated ≠ tr.nextTrigger ∧ tr.shutdownFlag = false then
            ({ tr with nextTrigger := calculated, interruptSet := true }, false)
          else (tr, false)
        else ({ tr with buckets := setBucketMembers tr.buckets s.interval ms }, false)

/-- `IntervalTracker.get_expired_intervals` (lines 111-121): collect the
keys of buckets whose trigger has passed and advance each such trigger by
its interval duration. -/
def getExpiredIntervals (now : Int) (tr : Tracker) : List TimeFrame × Tracker :=
  ((tr.buckets.filter (fun b => decide (b.trigger ≤ now))).map Bucket.key,
   { tr with buckets := tr.buckets.map (fun b =>
       if b.trigger ≤ now then { b with trigger := b.trigger + timeframeDelta b.key } else b) })

/-- An operation on the scheduler: `add_symbol_set` or `remove_symbol_set`. -/
inductive TrackerOp where
  | add (s : SymSet) (updateTime : Option Int)
  | remove (s : SymSet)

/-- Apply one operation (keeping the state reached when the operation
raises, as the Python exception leaves it). -/
def applyOp (tr : Tracker) : TrackerOp → Tracker
  | .add s t => (addSymbolSet tr s t).1
  | .remove s => (removeSymbolSetT tr s).1

/-- Apply a sequence of scheduler operations to a fresh tracker state. -/
def applyOps (ops : List TrackerOp) (tr : Tracker) : Tracker :=
  ops.foldl applyOp tr

/-- The scheduler invariant maintained by `add`/`remove` sequences: the
flag stays down, the cached wake time is the source's recomputation, and
no bucket is empty. -/
def schedInv (tr : Tracker) : Prop :=
  tr.shutdownFlag = false ∧
  tr.nextTrigger = calculateNextTrigger tr.buckets ∧
  ∀ b ∈ tr.buckets, b.members ≠ []

theorem setBucketMembers_triggers (bs : List Bucket) (k : TimeFrame)
    (ms : List SymSet) :
    (setBucketMembers bs k ms).map Bucket.trigger = bs.map Bucket.trigger := by
  unfold setBucketMembers
  rw [List.map_map]
  apply List.map_congr_left
  intro b _
  by_cases h : b.key = k
  · simp [h]
  · simp [h]

theorem calcNextTrigger_congr {bs₁ bs₂ : List Bucket}
    (h : bs₁.map Bucket.trigger = bs₂.map Bucket.trigger) :
    calculateNextTrigger bs₁ = calculateNextTrigger bs₂ := by
  unfold calculateNextTrigger
  rw [h]

theorem calcNextTrigger_eq_none_iff (bs : List Bucket) :
    calculateNextTrigger bs = none ↔ bs = [] := by
  cases bs <;> simp [calculateNextTrigger]

theorem calcNextTrigger_eq_min? (bs : List Bucket) :
    calculateNextTrigger bs = (bs.map Bucket.trigger).min? := by
  cases h : bs.map Bucket.trigger <;> simp [calculateNextTrigger, h, List.min?]

theorem setBucketMembers_members_ne_nil {bs : List Bucket} {k : TimeFrame}
    {ms : List SymSet} (hms : ms ≠ [])
    (h : ∀ b ∈ bs, b.members ≠ []) :
    ∀ b ∈ setBucketMembers bs k ms, b.members ≠ [] := by
  intro b hb
  unfold setBucketMembers at hb
  rcases List.mem_map.mp hb with ⟨b₀, hb₀, hmap⟩
  by_cases hk : b₀.key == k
  · rw [if_pos hk] at hmap
    rw [← hmap]
    exact hms
  · rw [if_neg hk] at hmap
    rw [← hmap]
    exact h b₀ hb₀

theorem schedInv_addSymbolSetCore (tr : Tracker) (s : SymSet) (ut : Option Int)
    (hf : tr.shutdownFlag = false)
    (ht : tr.nextTrigger = calculateNextTrigger tr.buckets)
    (hm : ∀ b ∈ tr.buckets, b.members ≠ []) :
    schedInv (addSymbolSetCore tr s ut).1 := by
  unfold addSymbolSetCore
  split
  · rename_i b hlk
    refine ⟨hf, ?_, ?_⟩
    · show tr.nextTrigger =
        calculateNextTrigger (setBucketMembers tr.buckets s.interval (b.members ++ [s]))
      rw [ht, calcNextTrigger_congr (setBucketMembers_triggers tr.buckets s.interval (b.members ++ [s]))]
    · exact setBucketMembers_members_ne_nil (by simp) hm
  · split
    · exact ⟨hf, ht, hm⟩
    · rename_i t
      dsimp only
      split
      · rename_i hcalc
        refine ⟨hf, rfl, ?_⟩
        intro b hb
        rcases List.mem_append.mp hb with hb | hb
        · exact hm b hb
        · rcases List.mem_singleton.mp hb with rfl
          simp
      · rename_i hcalc
        rw [not_not] at hcalc
        refine ⟨hf, hcalc.symm, ?_⟩
        intro b hb
        rcases List.mem_append.mp hb with hb | hb
        · exact hm b hb
        · rcases List.mem_singleton.mp hb with rfl
          simp

theorem schedInv_addSymbolSet (tr : Tracker) (s : SymSet) (ut : Option Int)
    (h : schedInv tr) : schedInv (addSymbolSet tr s ut).1 := by
  obtain ⟨hf, ht, hm⟩ := h
  unfold addSymbolSet
  apply schedInv_addSymbolSetCore
  · unfold addFlagReset
    split <;> simp [hf]
  · unfold addFlagReset
    split <;> exact ht
  · unfold addFlagReset
    split <;> exact hm

theorem schedInv_removeSymbolSetT (tr : Tracker) (s : SymSet)
    (h : schedInv tr) : schedInv (removeSymbolSetT tr s).1 := by
  obtain ⟨hf, ht, hm⟩ := h
  unfold removeSymbolSetT
  split
  · exact ⟨hf, ht, hm⟩
  · split
    · exact ⟨hf, ht, hm⟩
    · rename_i b hlk
      split
      · exact ⟨hf, ht, hm⟩
      · rename_i ms hrm
        split
        · rename_i hms
          dsimp only
          split
          · rename_i hcond
            refine ⟨hf, rfl, ?_⟩
            intro b' hb'
            exact hm b' (List.mem_of_mem_filter hb')
          · rename_i hcond
            push_neg at hcond
            refine ⟨hf, ?_, ?_⟩
            · have hceq : calculateNextTrigger (eraseBucket tr.buckets s.interval) =
                  tr.nextTrigger := by
                by_contra hne
                exact absurd hf (hcond hne)
              exact hceq.symm
            · intro b' hb'
              exact hm b' (List.mem_of_mem_filter hb')
        · rename_i hms
          refine ⟨hf, ?_, ?_⟩
          · show tr.nextTrigger =
              calculateNextTrigger (setBucketMembers tr.buckets s.interval ms)
            rw [ht, calcNextTrigger_congr (setBucketMembers_triggers tr.buckets s.interval ms)]
          · exact setBucketMembers_members_ne_nil hms hm

theorem schedInv_applyOps (ops : List TrackerOp) :
    schedInv (applyOps ops initialTracker) := by
  have hgen : ∀ tr, schedInv tr → schedInv (applyOps ops tr) := by
    induction ops with
    | nil => intro tr h; exact h
    | cons op rest ih =>
      intro tr h
      simp only [applyOps, List.foldl_cons]
      apply ih
      cases op with
      | add s t => exact schedInv_addSymbolSet tr s t h
      | remove s => exact schedInv_removeSymbolSetT tr s h
  exact hgen initialTracker ⟨rfl, rfl, by intro b hb; cases hb⟩

/-- C1: for every sequence of `add_symbol_set` / `remove_symbol_set`
operations on a fresh `IntervalTracker`, after each operation the cached
`_next_trigger` equals the minimum `next_trigger` over all buckets (every
bucket being non-empty), and it is `None` exactly when no buckets exist. -/
theorem tracker_next_trigger_invariant (ops : List TrackerOp) :
    (applyOps ops initialTracker).nextTrigger =
      ((applyOps ops initialTracker).buckets.map Bucket.trigger).min? ∧
    (∀ b ∈ (applyOps ops initialTracker).buckets, b.members ≠ []) ∧
    ((applyOps ops initialTracker).nextTrigger = none ↔
      (applyOps ops initialTracker).buckets = []) := by
  obtain ⟨hf, ht, hm⟩ := schedInv_applyOps ops
  refine ⟨ht.trans (calcNextTrigger_eq_min? _), hm, ?_⟩
  rw [ht]
  exact calcNextTrigger_eq_none_iff _

/-- C6: a bucket for interval `"1D"` created with reference time `T0`
(so `next_trigger = T0 + 1 day`): `get_expired_intervals` at any time
before `T0 + 1 day` returns no entry and leaves the bucket unchanged,
while at any time at or after `T0 + 1 day` it returns exactly that
bucket's interval key and advances its `next_trigger` to `T0 + 2 days`
(times in minutes: one day is `1440`). -/
theorem daily_bucket_drain (s : SymSet) (hs : s.interval = TimeFrame.DAILY)
    (t0 now : Int) :
    (now < t0 + 1440 →
      getExpiredIntervals now (addSymbolSet initialTracker s (some t0)).1 =
        ([], (addSymbolSet initialTracker s (some t0)).1)) ∧
    (t0 + 1440 ≤ now →
      getExpiredIntervals now (addSymbolSet initialTracker s (some t0)).1 =
        ([TimeFrame.DAILY],
          { (addSymbolSet initialTracker s (some t0)).1 with
              buckets := [{ key := TimeFrame.DAILY, members := [s], trigger := t0 + 2880 }] })) := by
  have hst : (addSymbolSet initialTracker s (some t0)).1 =
      { buckets := [{ key := TimeFrame.DAILY, members := [s], trigger := t0 + 1440 }],
        shutdownFlag := false, interruptSet := true, nextTrigger := some (t0 + 1440) } := by
    simp [addSymbolSet, addSymbolSetCore, addFlagReset, initialTracker,
      lookupBucket, calculateNextTrigger, hs, timeframeDelta]
  constructor
  · intro h
    have hlt : ¬ (t0 + 1440 ≤ now) := by omega
    rw [hst]
    simp [getExpiredIntervals, hlt]
  · intro h
    rw [hst]
    simp only [getExpiredIntervals]
    rw [List.filter_cons_of_pos (by simpa using h)]
    simp [h, timeframeDelta]
    omega

/-- Witness for `daily_bucket_drain` at a concrete subscription and times. -/
theorem daily_bucket_drain_witness :
    (getExpiredIntervals 100
        (addSymbolSet initialTracker
          ⟨0, "BTCUSD", "BINANCE", TimeFrame.DAILY, none, []⟩ (some 0)).1 =
      ([], (addSymbolSet initialTracker
          ⟨0, "BTCUSD", "BINANCE", TimeFrame.DAILY, none, []⟩ (some 0)).1)) ∧
    (getExpiredIntervals 2000
        (addSymbolSet initialTracker
          ⟨0, "BTCUSD", "BINANCE", TimeFrame.DAILY, none, []⟩ (some 0)).1 =
      ([TimeFrame.DAILY],
        { (addSymbolSet initialTracker
            ⟨0, "BTCUSD", "BINANCE", TimeFrame.DAILY, none, []⟩ (some 0)).1 with
            buckets := [⟨TimeFrame.DAILY, [⟨0, "BTCUSD", "BINANCE", TimeFrame.DAILY, none, []⟩], 2880⟩] })) :=
  ⟨(daily_bucket_drain ⟨0, "BTCUSD", "BINANCE", TimeFrame.DAILY, none, []⟩ rfl 0 100).1
      (by omega),
   by
    have h := (daily_bucket_drain ⟨0, "BTCUSD", "BINANCE", TimeFrame.DAILY, none, []⟩ rfl 0
        2000).2 (by omega)
    simpa using h⟩

/-! ## `XnoxsLiveFeed` subscription registration (`live_feed.py` 251-349) -/

/-- The subscription-registration state of an `XnoxsLiveFeed`: the tracker
plus a fresh-instance counter modelling Python object identity. -/
structure Feed where
  tracker : Tracker
  nextSid : Nat
  deriving DecidableEq, Repr

/-- A fresh feed. -/
def initialFeed : Feed := { tracker := initialTracker, nextSid := 0 }

/-- `XnoxsLiveFeed.create_symbol_set` (lines 251-313): return the existing
set for the triple if one is tracked; otherwise build a new instance and
register it — seeding a brand-new interval group with the bar time from an
initial fetch (`fetchTime`; `none` models a failed fetch, whose
`AttributeError` aborts the call before the tracker is touched).  Lock
handling and the background-thread start are omitted (single-thread
semantics). -/
def createSymbolSet (feed : Feed) (sym exch : String) (tf : TimeFrame)
    (fetchTime : Option Int) : Option (SymSet × Feed) :=
  match findSymbolSet feed.tracker sym exch tf with
  | some existing => some (existing, feed)
  | none =>
    let newSeis : SymSet :=
      { sid := feed.nextSid, sym := sym, exch := exch, interval := tf,
        lastUpdate := none, consumers := [] }
    if containsSeis feed.tracker newSeis then
      match findSymbolSet feed.tracker sym exch tf with
      | some existing => some (existing, feed)
      | none => none
    else
      if lookupBucket feed.tracker.buckets tf = none then
        match fetchTime with
        | none => none
        | some t =>
          some (newSeis,
            { tracker := (addSymbolSet feed.tracker newSeis (some t)).1,
              nextSid := feed.nextSid + 1 })
      else
        some (newSeis,
          { tracker := (addSymbolSet feed.tracker newSeis none).1,
            nextSid := feed.nextSid + 1 })

/-- `XnoxsLiveFeed.remove_symbol_set` (lines 315-349): raises (`Bool` flag)
when the set is not tracked; otherwise removes it from the tracker and
requests shutdown when the tracker becomes empty.  (The stop sentinel sent
to the removed set's consumers does not affect the tracker state.) -/
def removeSymbolSetFeed (feed : Feed) (s : SymSet) : Feed × Bool :=
  if ¬ containsSeis feed.tracker s then (feed, true)
  else
    let tr := (removeSymbolSetT feed.tracker s).1
    let tr := if tr.buckets = [] then
        { tr with shutdownFlag := true, interruptSet := true }
      else tr
    ({ feed with tracker := tr }, false)

/-- A public subscription-registry operation. -/
inductive FeedOp where
  | create (sym exch : String) (tf : TimeFrame) (fetchTime : Option Int)
  | removeOp (s : SymSet)

/-- Apply one registry operation (a raising or aborted call leaves the
state it reached, as in Python). -/
def applyFeedOp (feed : Feed) : FeedOp → Feed
  | .create sym exch tf ft =>
    match createSymbolSet feed sym exch tf ft with
    | some (_, feed') => feed'
    | none => feed
  | .removeOp s => (removeSymbolSetFeed feed s).1

/-- Apply a sequence of registry operations to a fresh feed. -/
def applyFeedOps (ops : List FeedOp) (feed : Feed) : Feed :=
  ops.foldl applyFeedOp feed

/-- The identity key of a subscription. -/
def seisKey (m : SymSet) : String × String × TimeFrame := (m.sym, m.exch, m.interval)

/-- How many tracked subscriptions carry a given identity key. -/
def keyCount (feed : Feed) (k : String × String × TimeFrame) : Nat :=
  (allSeis feed.tracker).countP (fun m => decide (seisKey m = k))

theorem addFlagReset_buckets (tr : Tracker) : (addFlagReset tr).buckets = tr.buckets := by
  unfold addFlagReset
  split <;> rfl

theorem find?_unique {α : Type} (p : α → Bool) (l : List α) (s : α)
    (hmem : s ∈ l) (hp : p s = true)
    (huniq : ∀ x ∈ l, p x = true → x = s) :
    l.find? p = some s := by
  induction l with
  | nil => cases hmem
  | cons a rest ih =>
    by_cases ha : p a = true
    · rw [List.find?_cons_of_pos _ ha, huniq a (List.mem_cons_self a rest) ha]
    · rw [List.find?_cons_of_neg _ (by simpa using ha)]
      rcases List.mem_cons.mp hmem with rfl | hmem'
      · exact absurd hp ha
      · exact ih hmem' (fun x hx hpx => huniq x (List.mem_cons_of_mem a hx) hpx)

theorem mem_allSeis_addCore {tr : Tracker} {s m : SymSet} {ut : Option Int}
    (h : m ∈ allSeis (addSymbolSetCore tr s ut).1) : m ∈ allSeis tr ∨ m = s := by
  unfold addSymbolSetCore at h
  split at h
  · rename_i b hlk
    simp only [allSeis] at h ⊢
    rcases List.mem_flatMap.mp h with ⟨b', hb', hm⟩
    unfold setBucketMembers at hb'
    rcases List.mem_map.mp hb' with ⟨b₀, hb₀, hmap⟩
    subst hmap
    by_cases hk : b₀.key = s.interval
    · rw [if_pos (by simpa using hk)] at hm
      simp only at hm
      rcases List.mem_append.mp hm with hm | hm
      · exact Or.inl (List.mem_flatMap.mpr ⟨b, List.mem_of_find?_eq_some hlk, hm⟩)
      · exact Or.inr (List.mem_singleton.mp hm)
    · rw [if_neg (by simpa using hk)] at hm
      exact Or.inl (List.mem_flatMap.mpr ⟨b₀, hb₀, hm⟩)
  · split at h
    · exact Or.inl h
    · rename_i t
      dsimp only at h
      split at h <;>
      · simp only [allSeis] at h ⊢
        rw [List.flatMap_append] at h
        rcases List.mem_append.mp h with hm | hm
        · exact Or.inl hm
        · simp only [List.flatMap_cons, List.flatMap_nil, List.append_nil] at hm
          exact Or.inr (List.mem_singleton.mp hm)

theorem mem_allSeis_add {tr : Tracker} {s m : SymSet} {ut : Option Int}
    (h : m ∈ allSeis (addSymbolSet tr s ut).1) : m ∈ allSeis tr ∨ m = s := by
  unfold addSymbolSet at h
  rcases mem_allSeis_addCore h with hm | hm
  · simp only [allSeis, addFlagReset_buckets] at hm
    exact Or.inl hm
  · exact Or.inr hm

theorem self_mem_addCore_existing {tr : Tracker} (s : SymSet) (ut : Option Int)
    {b : Bucket} (hlk : lookupBucket tr.buckets s.interval = some b) :
    s ∈ allSeis (addSymbolSetCore tr s ut).1 := by
  unfold addSymbolSetCore
  rw [hlk]
  simp only [allSeis]
  apply List.mem_flatMap.mpr
  refine ⟨{ b with members := b.members ++ [s] }, ?_, by simp⟩
  unfold setBucketMembers
  apply List.mem_map.mpr
  refine ⟨b, List.mem_of_find?_eq_some hlk, ?_⟩
  rw [if_pos (List.find?_some hlk)]

theorem self_mem_addCore_new {tr : Tracker} (s : SymSet) (t : Int)
    (hlk : lookupBucket tr.buckets s.interval = none) :
    s ∈ allSeis (addSymbolSetCore tr s (some t)).1 := by
  unfold addSymbolSetCore
  rw [hlk]
  dsimp only
  split <;>
  · simp only [allSeis]
    apply List.mem_flatMap.mpr
    exact ⟨_, List.mem_append_right _ (List.mem_singleton_self _), List.mem_singleton_self s⟩

theorem createSymbolSet_idempotent (feed : Feed) (sym exch : String)
    (tf : TimeFrame) (t1 : Int) (ft2 : Option Int) (s1 : SymSet) (feed1 : Feed)
    (h : createSymbolSet feed sym exch tf (some t1) = some (s1, feed1)) :
    createSymbolSet feed1 sym exch tf ft2 = some (s1, feed1) := by
  unfold createSymbolSet at h
  split at h
  · rename_i existing hfind
    simp only [Option.some.injEq, Prod.mk.injEq] at h
    obtain ⟨hs1, hfeed1⟩ := h
    subst hs1
    subst hfeed1
    unfold createSymbolSet
    rw [hfind]
  · rename_i hfind
    dsimp only at h
    split at h
    · simp at h
    · rename_i hcont
      have hnone : ∀ x ∈ allSeis feed.tracker,
          ¬ (x.sym == sym && x.exch == exch && x.interval == tf) = true :=
        List.find?_eq_none.mp hfind
      split at h
      · rename_i hlk
        simp only [Option.some.injEq, Prod.mk.injEq] at h
        obtain ⟨hs1, hfeed1⟩ := h
        have hmem : s1 ∈ allSeis feed1.tracker := by
          rw [← hfeed1, ← hs1]
          unfold addSymbolSet
          exact self_mem_addCore_new _ t1 (by rw [addFlagReset_buckets]; exact hlk)
        have hfind1 : findSymbolSet feed1.tracker sym exch tf = some s1 := by
          apply find?_unique _ _ _ hmem (by rw [← hs1]; simp)
          intro x hx hpx
          rw [← hfeed1] at hx
          rcases mem_allSeis_add hx with hold | hnew
          · exact absurd hpx (hnone x hold)
          · rw [hnew, hs1]
        unfold createSymbolSet
        rw [hfind1]
      · rename_i hlk
        rcases Option.ne_none_iff_exists'.mp hlk with ⟨b, hb⟩
        simp only [Option.some.injEq, Prod.mk.injEq] at h
        obtain ⟨hs1, hfeed1⟩ := h
        have hmem : s1 ∈ allSeis feed1.tracker := by
          rw [← hfeed1, ← hs1]
          unfold addSymbolSet
          exact self_mem_addCore_existing _ none
            (b := b) (by rw [addFlagReset_buckets]; exact hb)
        have hfind1 : findSymbolSet feed1.tracker sym exch tf = some s1 := by
          apply find?_unique _ _ _ hmem (by rw [← hs1]; simp)
          intro x hx hpx
          rw [← hfeed1] at hx
          rcases mem_allSeis_add hx with hold | hnew
          · exact absurd hpx (hnone x hold)
          · rw [hnew, hs1]
        unfold createSymbolSet
        rw [hfind1]

/-- Well-formedness of a tracker state, maintained by the registry:
bucket keys are distinct (a Python dict), every member sits in the bucket
of its own interval, and at most one tracked subscription exists per
identity key. -/
def feedWF (tr : Tracker) : Prop :=
  (tr.buckets.map Bucket.key).Nodup ∧
  (∀ b ∈ tr.buckets, ∀ m ∈ b.members, m.interval = b.key) ∧
  (∀ k : String × String × TimeFrame,
    (allSeis tr).countP (fun m => decide (seisKey m = k)) ≤ 1)

theorem setBucketMembers_keys (bs : List Bucket) (k : TimeFrame) (ms : List SymSet) :
    (setBucketMembers bs k ms).map Bucket.key = bs.map Bucket.key := by
  unfold setBucketMembers
  rw [List.map_map]
  apply List.map_congr_left
  intro b _
  by_cases h : b.key = k
  · simp [h]
  · simp [h]

theorem setBucketMembers_id (bs : List Bucket) (k : TimeFrame) (ms : List SymSet)
    (h : ∀ b ∈ bs, b.key ≠ k) : setBucketMembers bs k ms = bs := by
  unfold setBucketMembers
  conv_rhs => rw [← List.map_id bs]
  apply List.map_congr_left
  intro b hb
  simp [h b hb]

theorem removeFirstSeis_sublist (s : SymSet) :
    ∀ (l r : List SymSet), removeFirstSeis s l = some r → r.Sublist l := by
  intro l
  induction l with
  | nil => intro r hr; cases hr
  | cons m ms ih =>
    intro r hr
    unfold removeFirstSeis at hr
    split at hr
    · cases hr
      exact List.sublist_cons_self m ms
    · rcases Option.map_eq_some'.mp hr with ⟨r', hr', rfl⟩
      exact List.Sublist.cons₂ m (ih r' hr')

theorem lookupBucket_none_iff (bs : List Bucket) (k : TimeFrame) :
    lookupBucket bs k = none ↔ ∀ b ∈ bs, b.key ≠ k := by
  unfold lookupBucket
  rw [List.find?_eq_none]
  constructor
  · intro h b hb
    have := h b hb
    simpa using this
  · intro h b hb
    simpa using h b hb

theorem countP_flatten_setBucketMembers (p : SymSet → Bool) :
    ∀ (bs : List Bucket) (k : TimeFrame) (ms : List SymSet) (b : Bucket),
      (bs.map Bucket.key).Nodup →
      lookupBucket bs k = some b →
      ((setBucketMembers bs k ms).flatMap Bucket.members).countP p + b.members.countP p =
        (bs.flatMap Bucket.members).countP p + ms.countP p := by
  intro bs
  induction bs with
  | nil => intro k ms b _ hlk; cases hlk
  | cons b0 rest ih =>
    intro k ms b hnd hlk
    rw [List.map_cons, List.nodup_cons] at hnd
    by_cases hk : b0.key = k
    · unfold lookupBucket at hlk
      rw [List.find?_cons_of_pos _ (by simpa using hk)] at hlk
      obtain rfl : b = b0 := (Option.some_inj.mp hlk).symm
      have hrest : ∀ b' ∈ rest, b'.key ≠ k := by
        intro b' hb' heq
        apply hnd.1
        rw [hk, ← heq]
        exact List.mem_map_of_mem Bucket.key hb'
      have hid : setBucketMembers rest k ms = rest := setBucketMembers_id rest k ms hrest
      unfold setBucketMembers at hid ⊢
      rw [List.map_cons, if_pos (by simpa using hk), hid]
      simp only [List.flatMap_cons, List.countP_append]
      omega
    · unfold lookupBucket at hlk
      rw [List.find?_cons_of_neg _ (by simpa using hk)] at hlk
      have hih := ih k ms b hnd.2 hlk
      unfold setBucketMembers at hih ⊢
      rw [List.map_cons, if_neg (by simpa using hk)]
      simp only [List.flatMap_cons, List.countP_append] at hih ⊢
      omega

theorem countP_singleton_ite (p : SymSet → Bool) (s : SymSet) :
    [s].countP p = if p s then 1 else 0 := by
  by_cases h : p s = true <;> simp [List.countP_cons, h]

theorem countP_allSeis_addCore_le (tr : Tracker) (s : SymSet) (ut : Option Int)
    (p : SymSet → Bool) (hnd : (tr.buckets.map Bucket.key).Nodup) :
    (allSeis (addSymbolSetCore tr s ut).1).countP p ≤
      (allSeis tr).countP p + (if p s then 1 else 0) := by
  unfold addSymbolSetCore
  split
  · rename_i b hlk
    have h := countP_flatten_setBucketMembers p tr.buckets s.interval
      (b.members ++ [s]) b hnd hlk
    rw [List.countP_append, countP_singleton_ite] at h
    simp only [allSeis]
    omega
  · split
    · simp only [allSeis]
      split <;> omega
    · rename_i t
      dsimp only
      split <;>
      · simp only [allSeis, List.flatMap_append, List.countP_append,
          List.flatMap_cons, List.flatMap_nil, List.append_nil, countP_singleton_ite]
        omega

theorem sublist_flatMap {α β : Type} (f : α → List β) {l₁ l₂ : List α}
    (h : l₁.Sublist l₂) : (l₁.flatMap f).Sublist (l₂.flatMap f) := by
  induction h with
  | slnil => exact List.Sublist.refl _
  | cons a _ ih =>
    simp only [List.flatMap_cons]
    exact ih.trans (List.sublist_append_right _ _)
  | cons₂ a _ ih =>
    simp only [List.flatMap_cons]
    exact ih.append_left _

theorem countP_allSeis_removeT_le (tr : Tracker) (s : SymSet)
    (p : SymSet → Bool) (hnd : (tr.buckets.map Bucket.key).Nodup) :
    (allSeis (removeSymbolSetT tr s).1).countP p ≤ (allSeis tr).countP p := by
  unfold removeSymbolSetT
  split
  · exact le_refl _
  · split
    · exact le_refl _
    · rename_i b hlk
      split
      · exact le_refl _
      · rename_i ms hrm
        have hsub := removeFirstSeis_sublist s b.members ms hrm
        have hcount := countP_flatten_setBucketMembers p tr.buckets s.interval ms b hnd hlk
        have hle : ms.countP p ≤ b.members.countP p := hsub.countP_le p
        split
        · dsimp only
          have hfil : ((eraseBucket tr.buckets s.interval).flatMap Bucket.members).countP p ≤
              (tr.buckets.flatMap Bucket.members).countP p :=
            (sublist_flatMap Bucket.members (List.filter_sublist _)).countP_le p
          split <;>
          · simp only [allSeis]
            exact hfil
        · simp only [allSeis]
          omega

theorem addCore_keys_nodup (tr : Tracker) (s : SymSet) (ut : Option Int)
    (hnd : (tr.buckets.map Bucket.key).Nodup) :
    ((addSymbolSetCore tr s ut).1.buckets.map Bucket.key).Nodup := by
  unfold addSymbolSetCore
  split
  · simpa [setBucketMembers_keys] using hnd
  · rename_i hlk
    split
    · exact hnd
    · rename_i t
      dsimp only
      have hk : ¬ s.interval ∈ tr.buckets.map Bucket.key := by
        intro hmem
        rcases List.mem_map.mp hmem with ⟨b, hb, hbk⟩
        exact ((lookupBucket_none_iff _ _).mp hlk) b hb hbk
      split <;>
      · simp only [List.map_append, List.map_cons, List.map_nil]
        refine List.nodup_append.mpr ⟨hnd, List.nodup_singleton _, ?_⟩
        intro a ha hb
        rw [List.mem_singleton] at hb
        subst hb
        exact hk ha

theorem removeT_keys_nodup (tr : Tracker) (s : SymSet)
    (hnd : (tr.buckets.map Bucket.key).Nodup) :
    ((removeSymbolSetT tr s).1.buckets.map Bucket.key).Nodup := by
  unfold removeSymbolSetT
  split
  · exact hnd
  · split
    · exact hnd
    · split
      · exact hnd
      · split
        · dsimp only
          split <;>
          · exact ((List.filter_sublist _).map Bucket.key).nodup hnd
        · simpa [setBucketMembers_keys] using hnd

theorem addCore_coherent (tr : Tracker) (s : SymSet) (ut : Option Int)
    (hco : ∀ b ∈ tr.buckets, ∀ m ∈ b.members, m.interval = b.key) :
    ∀ b ∈ (addSymbolSetCore tr s ut).1.buckets, ∀ m ∈ b.members, m.interval = b.key := by
  unfold addSymbolSetCore
  split
  · rename_i b0 hlk
    intro b hb m hm
    unfold setBucketMembers at hb
    rcases List.mem_map.mp hb with ⟨b1, hb1, hmap⟩
    subst hmap
    by_cases hk : b1.key = s.interval
    · rw [if_pos (by simpa using hk)] at hm ⊢
      simp only at hm ⊢
      rcases List.mem_append.mp hm with hm | hm
      · have hb0 : b0 ∈ tr.buckets := List.mem_of_find?_eq_some hlk
        have hb0k : b0.key = s.interval := by simpa using List.find?_some hlk
        rw [hco b0 hb0 m hm, hb0k, hk]
      · rcases List.mem_singleton.mp hm with rfl
        rw [hk]
    · rw [if_neg (by simpa using hk)] at hm ⊢
      exact hco b1 hb1 m hm
  · split
    · exact hco
    · rename_i t
      dsimp only
      split <;>
      · intro b hb m hm
        simp only at hb
        rcases List.mem_append.mp hb with hb | hb
        · exact hco b hb m hm
        · rcases List.mem_singleton.mp hb with rfl
          simp only at hm
          rcases List.mem_singleton.mp hm with rfl
          rfl

theorem removeT_coherent (tr : Tracker) (s : SymSet)
    (hco : ∀ b ∈ tr.buckets, ∀ m ∈ b.members, m.interval = b.key) :
    ∀ b ∈ (removeSymbolSetT tr s).1.buckets, ∀ m ∈ b.members, m.interval = b.key := by
  unfold removeSymbolSetT
  split
  · exact hco
  · split
    · exact hco
    · rename_i b0 hlk
      split
      · exact hco
      · rename_i ms hrm
        split
        · dsimp only
          split <;>
          · intro b hb m hm
            exact hco b (List.mem_of_mem_filter hb) m hm
        · intro b hb m hm
          unfold setBucketMembers at hb
          rcases List.mem_map.mp hb with ⟨b1, hb1, hmap⟩
          subst hmap
          by_cases hk : b1.key = s.interval
          · rw [if_pos (by simpa using hk)] at hm ⊢
            simp only at hm ⊢
            have hb0 : b0 ∈ tr.buckets := List.mem_of_find?_eq_some hlk
            have hb0k : b0.key = s.interval := by simpa using List.find?_some hlk
            rw [hco b0 hb0 m ((removeFirstSeis_sublist s _ _ hrm).subset hm), hb0k, hk]
          · rw [if_neg (by simpa using hk)] at hm ⊢
            exact hco b1 hb1 m hm

theorem feedWF_addFlagReset (tr : Tracker) (h : feedWF tr) : feedWF (addFlagReset tr) := by
  obtain ⟨hnd, hco, hcnt⟩ := h
  unfold addFlagReset
  split
  · exact ⟨hnd, hco, hcnt⟩
  · exact ⟨hnd, hco, hcnt⟩

/-- The predicate used by `find_symbol_set` holds exactly on the identity key. -/
theorem findPred_iff (m : SymSet) (sym exch : String) (tf : TimeFrame) :
    (m.sym == sym && m.exch == exch && m.interval == tf) = true ↔
      seisKey m = (sym, exch, tf) := by
  simp [seisKey, Prod.ext_iff, and_assoc]

theorem feedWF_createSymbolSet (feed : Feed) (sym exch : String) (tf : TimeFrame)
    (ft : Option Int) (h : feedWF feed.tracker) :
    feedWF (applyFeedOp feed (.create sym exch tf ft)).tracker := by
  simp only [applyFeedOp]
  split
  · rename_i s' feed' heq
    unfold createSymbolSet at heq
    split at heq
    · rename_i existing hfind
      simp only [Option.some.injEq, Prod.mk.injEq] at heq
      rw [← heq.2]
      exact h
    · rename_i hfind
      dsimp only at heq
      split at heq
      · simp at heq
      · rename_i hcont
        have hzero : (allSeis feed.tracker).countP
            (fun m => decide (seisKey m = (sym, exch, tf))) = 0 := by
          rw [List.countP_eq_zero]
          intro m hm
          have hnp := List.find?_eq_none.mp hfind m hm
          simp only [decide_eq_true_eq]
          intro hkey
          exact hnp ((findPred_iff m sym exch tf).mpr hkey)
        obtain ⟨hnd, hco, hcnt⟩ := feedWF_addFlagReset feed.tracker h
        have haddWF : ∀ ut : Option Int, feedWF (addSymbolSetCore (addFlagReset feed.tracker)
            { sid := feed.nextSid, sym := sym, exch := exch, interval := tf,
              lastUpdate := none, consumers := [] } ut).1 := by
          intro ut
          refine ⟨addCore_keys_nodup _ _ _ hnd, addCore_coherent _ _ _ hco, ?_⟩
          intro k
          have hle := countP_allSeis_addCore_le (addFlagReset feed.tracker)
            { sid := feed.nextSid, sym := sym, exch := exch, interval := tf,
              lastUpdate := none, consumers := [] } ut
            (fun m => decide (seisKey m = k)) hnd
          have hsame : allSeis (addFlagReset feed.tracker) = allSeis feed.tracker := by
            simp only [allSeis, addFlagReset_buckets]
          by_cases hk : (sym, exch, tf) = k
          · subst hk
            rw [hsame, hzero] at hle
            simpa [seisKey] using hle
          · have hkey : (decide (seisKey
                { sid := feed.nextSid, sym := sym, exch := exch, interval := tf,
                  lastUpdate := none, consumers := [] } = k)) = false := by
              simpa [seisKey] using hk
            simp only [hkey, Bool.false_eq_true, if_false, Nat.add_zero] at hle
            exact le_trans hle (hcnt k)
        split at heq
        · rename_i hlk
          split at heq
          · simp at heq
          · rename_i t
            simp only [Option.some.injEq, Prod.mk.injEq] at heq
            rw [← heq.2]
            exact haddWF (some t)
        · rename_i hlk
          simp only [Option.some.injEq, Prod.mk.injEq] at heq
          rw [← heq.2]
          exact haddWF none
  · exact h

theorem feedWF_removeSymbolSetFeed (feed : Feed) (s : SymSet)
    (h : feedWF feed.tracker) :
    feedWF ((removeSymbolSetFeed feed s).1).tracker := by
  obtain ⟨hnd, hco, hcnt⟩ := h
  simp only [removeSymbolSetFeed]
  split
  · exact ⟨hnd, hco, hcnt⟩
  · dsimp only
    have h1 := removeT_keys_nodup feed.tracker s hnd
    have h2 := removeT_coherent feed.tracker s hco
    have h3 : ∀ k : String × String × TimeFrame,
        (allSeis (removeSymbolSetT feed.tracker s).1).countP
          (fun m => decide (seisKey m = k)) ≤ 1 :=
      fun k => le_trans (countP_allSeis_removeT_le feed.tracker s _ hnd) (hcnt k)
    split
    · exact ⟨h1, h2, h3⟩
    · exact ⟨h1, h2, h3⟩

theorem feedWF_applyFeedOps (ops : List FeedOp) :
    feedWF (applyFeedOps ops initialFeed).tracker := by
  have hgen : ∀ feed, feedWF feed.tracker → feedWF (applyFeedOps ops feed).tracker := by
    induction ops with
    | nil => intro feed h; exact h
    | cons op rest ih =>
      intro feed h
      simp only [applyFeedOps, List.foldl_cons]
      apply ih
      cases op with
      | create sym exch tf ft => exact feedWF_createSymbolSet feed sym exch tf ft h
      | removeOp s => exact feedWF_removeSymbolSetFeed feed s h
  refine hgen initialFeed ⟨List.nodup_nil, ?_, ?_⟩
  · intro b hb
    cases hb
  · intro k
    simp [allSeis, initialFeed, initialTracker]

/-- C5: subscribing (`create_symbol_set`) twice with the same
(symbol, exchange, interval) triple returns the identical `SymbolSet`
instance the second time with the feed unchanged, and after any sequence
of subscribe/unsubscribe operations at most one subscription per identity
key is registered in the tracker. -/
theorem subscribe_idempotent_unique :
    (∀ (feed : Feed) (sym exch : String) (tf : TimeFrame) (t1 : Int)
        (ft2 : Option Int) (s1 : SymSet) (feed1 : Feed),
      createSymbolSet feed sym exch tf (some t1) = some (s1, feed1) →
      createSymbolSet feed1 sym exch tf ft2 = some (s1, feed1)) ∧
    (∀ (ops : List FeedOp) (k : String × String × TimeFrame),
      keyCount (applyFeedOps ops initialFeed) k ≤ 1) :=
  ⟨createSymbolSet_idempotent,
   fun ops k => (feedWF_applyFeedOps ops).2.2 k⟩

/-- A concrete subscription used by the witness below. -/
def seisW : SymSet := ⟨0, "BTCUSD", "BINANCE", TimeFrame.DAILY, none, []⟩

/-- The feed state after the first subscribe of the witness below. -/
def feedW : Feed := ⟨⟨[⟨TimeFrame.DAILY, [seisW], 1440⟩], false, true, some 1440⟩, 1⟩

/-- Witness for `subscribe_idempotent_unique`: the second subscribe to the
same triple on a concrete feed returns the first call's instance and state. -/
theorem subscribe_idempotent_unique_witness :
    createSymbolSet feedW "BTCUSD" "BINANCE" TimeFrame.DAILY none = some (seisW, feedW) :=
  subscribe_idempotent_unique.1 initialFeed "BTCUSD" "BINANCE" TimeFrame.DAILY 0 none
    seisW feedW (by decide)

/-! ## The orchestrator loop (`XnoxsLiveFeed._data_loop`, `live_feed.py` 412-451)

Single-thread semantics: the interrupt event's `wait` observes the event
state at the call (no concurrent setter), and a wait whose event is unset
simply elapses.  `get_historical_data` is the oracle
`fetch : Nat → Nat → Option Int`, mapping a subscription's `sid` and the
attempt number to the latest bar timestamp of the returned frame (`none`
models a failed fetch returning `None`).  The delivered one-bar frame
(after `data.drop(labels=data.index[1])`) is abstracted to that
timestamp. -/

/-- `DataConsumer.enqueue(data)` on every consumer of a set
(`_data_loop` lines 440-441). -/
def enqueueAll (s : SymSet) (t : Int) : SymSet :=
  { s with consumers := s.consumers.map (fun c => { c with buf := c.buf ++ [some t] }) }

/-- `DataConsumer.stop()`: enqueue the `None` stop sentinel. -/
def stopConsumer (c : DC) : DC := { c with buf := c.buf ++ [none] }

/-- The `for attempt in range(RETRY_LIMIT)` retry loop (lines 420-432) for
one subscription: `i` is the attempt number, the second `Nat` the remaining
attempts.  Returns the updated set and `some t` for the delivered bar, or
`none` when the loop exhausts (`for`-`else`).  `is_new_data` (`models.py`
183-197) updates `_last_update` when the fetched head timestamp differs. -/
def refreshGo (fetch : Nat → Option Int) : SymSet → Nat → Nat → SymSet × Option Int
  | s, _, 0 => (s, none)
  | s, i, rem + 1 =>
    match fetch i with
    | some t =>
      if s.lastUpdate ≠ some t then ({ s with lastUpdate := some t }, some t)
      else refreshGo fetch s (i + 1) rem
    | none => refreshGo fetch s (i + 1) rem

/-- The retry loop from attempt `0` with the full `RETRY_LIMIT` budget. -/
def refreshSeis (fetch : Nat → Option Int) (s : SymSet) : SymSet × Option Int :=
  refreshGo fetch s 0 RETRY_LIMIT

/-- Process the members of one due bucket in order (lines 417-441),
threading the shutdown flag and interrupt event: a stale member triggers
`request_shutdown()` (lines 433-438) and `continue`; a fresh bar is
enqueued to every consumer. -/
def processMembers (fetch : Nat → Nat → Option Int) :
    Bool → Bool → List SymSet → Bool × Bool × List SymSet
  | sd, it, [] => (sd, it, [])
  | sd, it, s :: rest =>
    match refreshSeis (fetch s.sid) s with
    | (s', some t) =>
      let r := processMembers fetch sd it rest
      (r.1, r.2.1, enqueueAll s' t :: r.2.2)
    | (s', none) =>
      let r := processMembers fetch true true rest
      (r.1, r.2.1, s' :: r.2.2)

/-- Process one expired interval key (the body of the
`for interval_key in get_expired_intervals()` loop, lines 416-441). -/
def processKey (fetch : Nat → Nat → Option Int) (tr : Tracker) (k : TimeFrame) :
    Tracker :=
  match lookupBucket tr.buckets k with
  | none => tr
  | some b =>
    let p := processMembers fetch tr.shutdownFlag tr.interruptSet b.members
    { tr with
      shutdownFlag := p.1
      interruptSet := p.2.1
      buckets := setBucketMembers tr.buckets k p.2.2 }

/-- One pass of the loop body under the lock (lines 415-441): collect and
advance the expired buckets, then refresh each of their members. -/
def processExpired (now : Int) (fetch : Nat → Nat → Option Int) (tr : Tracker) :
    Tracker :=
  ((getExpiredIntervals now tr).1).foldl (processKey fetch) (getExpiredIntervals now tr).2

/-- The `while True` wait loop of `IntervalTracker.wait_for_trigger`
(lines 97-109), with the given spin fuel: a set interrupt event makes
`event.wait` return immediately (`some false` is the shutdown return;
spinning with the event set and no shutdown exhausts the fuel → `none`);
an unset event means the wait elapses and the loop clears and breaks.
A `none` cached trigger is the `TypeError` of `None - datetime.now()`. -/
def waitTriggerLoop : Nat → Tracker → Option Bool × Tracker
  | 0, tr => (none, tr)
  | fuel + 1, tr =>
    match tr.nextTrigger with
    | none => (none, tr)
    | some _ =>
      if tr.interruptSet then
        if tr.shutdownFlag then (some false, tr)
        else waitTriggerLoop fuel tr
      else (some true, { tr with interruptSet := false })

/-- `IntervalTracker.wait_for_trigger` (lines 84-109): clear the event
unless shutting down, recompute the cached wake time, then wait. -/
def waitForTrigger (fuel : Nat) (tr : Tracker) : Option Bool × Tracker :=
  let tr := if tr.shutdownFlag = false then { tr with interruptSet := false } else tr
  waitTriggerLoop fuel { tr with nextTrigger := calculateNextTrigger tr.buckets }

/-- The shutdown cleanup loop of `_data_loop` (lines 443-451) over a
snapshot of the tracked sets: for each set, stop (append the sentinel to)
every consumer, then remove the set from the tracker; a raise aborts the
loop (`none`).  Returns the final tracker and the stopped consumers. -/
def cleanupGo : List SymSet → Tracker → List DC → Option Tracker × List DC
  | [], tr, acc => (some tr, acc)
  | s :: rest, tr, acc =>
    let acc2 := acc ++ s.consumers.map stopConsumer
    match removeSymbolSetT tr s with
    | (tr', false) => cleanupGo rest tr' acc2
    | (_, true) => (none, acc2)

/-- The cleanup phase on the snapshot `list(self._tracker)`. -/
def cleanup (tr : Tracker) : Option Tracker × List DC :=
  cleanupGo (allSeis tr) tr []

/-- `_data_loop` (lines 412-451): `while wait_for_trigger(): process`;
on a `false` wait, clean up and exit.  `i` counts loop iterations (for the
`nows` clock oracle); the fuel bounds both the loop and the waits'
spinning, and `none` models nontermination or an uncaught exception. -/
def dataLoop (fetch : Nat → Nat → Option Int) (nows : Nat → Int) :
    Nat → Nat → Tracker → Option (Tracker × List DC)
  | _, 0, _ => none
  | i, fuel + 1, tr =>
    match waitForTrigger fuel tr with
    | (some true, tr') => dataLoop fetch nows (i + 1) fuel (processExpired (nows i) fetch tr')
    | (some false, tr') =>
      match cleanup tr' with
      | (some trF, cs) => some (trF, cs)
      | (none, _) => none
    | (none, _) => none

theorem refreshGo_stale (fetch : Nat → Option Int) (t0 : Int) :
    ∀ (rem i : Nat) (s : SymSet), s.lastUpdate = some t0 →
      (∀ a, i ≤ a → a < i + rem → fetch a = some t0) →
      refreshGo fetch s i rem = (s, none) := by
  intro rem
  induction rem with
  | zero => intro i s _ _; rfl
  | succ r ih =>
    intro i s hlast hf
    unfold refreshGo
    rw [hf i (le_refl i) (by omega)]
    dsimp only
    rw [if_neg (by simp [hlast])]
    exact ih (i + 1) s hlast (fun a ha1 ha2 => hf a (by omega) (by omega))

theorem refreshSeis_stale (fetch : Nat → Option Int) (t0 : Int) (s : SymSet)
    (hlast : s.lastUpdate = some t0)
    (hf : ∀ a, a < RETRY_LIMIT → fetch a = some t0) :
    refreshSeis fetch s = (s, none) :=
  refreshGo_stale fetch t0 RETRY_LIMIT 0 s hlast
    (fun a _ ha2 => hf a (by omega))

theorem processMembers_mono (fetch : Nat → Nat → Option Int) :
    ∀ (ms : List SymSet), (processMembers fetch true true ms).1 = true ∧
      (processMembers fetch true true ms).2.1 = true := by
  intro ms
  induction ms with
  | nil => exact ⟨rfl, rfl⟩
  | cons s rest ih =>
    unfold processMembers
    match refreshSeis (fetch s.sid) s with
    | (s', some t) => exact ih
    | (s', none) => exact ih

theorem processMembers_stale (fetch : Nat → Nat → Option Int) :
    ∀ (ms : List SymSet) (sd it : Bool) (s : SymSet), s ∈ ms →
      refreshSeis (fetch s.sid) s = (s, none) →
      (processMembers fetch sd it ms).1 = true ∧
        (processMembers fetch sd it ms).2.1 = true := by
  intro ms
  induction ms with
  | nil => intro sd it s hmem; cases hmem
  | cons m rest ih =>
    intro sd it s hmem hstale
    rcases List.mem_cons.mp hmem with rfl | hmem'
    · unfold processMembers
      rw [hstale]
      exact processMembers_mono fetch rest
    · unfold processMembers
      match refreshSeis (fetch m.sid) m with
      | (m', some t) => exact ih sd it s hmem' hstale
      | (m', none) => exact processMembers_mono fetch rest

theorem refreshGo_seisKey (fetch : Nat → Option Int) :
    ∀ (rem i : Nat) (s : SymSet),
      seisKey (refreshGo fetch s i rem).1 = seisKey s ∧
      (refreshGo fetch s i rem).1.sid = s.sid := by
  intro rem
  induction rem with
  | zero => intro i s; exact ⟨rfl, rfl⟩
  | succ r ih =>
    intro i s
    unfold refreshGo
    match fetch i with
    | some t =>
      dsimp only
      split
      · exact ⟨rfl, rfl⟩
      · exact ih (i + 1) s
    | none => exact ih (i + 1) s

theorem enqueueAll_seisKey (s : SymSet) (t : Int) : seisKey (enqueueAll s t) = seisKey s := rfl

theorem processMembers_map_seisKey (fetch : Nat → Nat → Option Int) :
    ∀ (ms : List SymSet) (sd it : Bool),
      ((processMembers fetch sd it ms).2.2).map seisKey = ms.map seisKey := by
  intro ms
  induction ms with
  | nil => intro sd it; rfl
  | cons s rest ih =>
    intro sd it
    unfold processMembers
    match h : refreshSeis (fetch s.sid) s with
    | (s', some t) =>
      dsimp only
      rw [List.map_cons, List.map_cons, ih, enqueueAll_seisKey]
      have := (refreshGo_seisKey (fetch s.sid) RETRY_LIMIT 0 s).1
      rw [show refreshGo (fetch s.sid) s 0 RETRY_LIMIT = (s', some t) from h] at this
      rw [this]
    | (s', none) =>
      dsimp only
      rw [List.map_cons, List.map_cons, ih]
      have := (refreshGo_seisKey (fetch s.sid) RETRY_LIMIT 0 s).1
      rw [show refreshGo (fetch s.sid) s 0 RETRY_LIMIT = (s', none) from h] at this
      rw [this]

theorem countP_eq_of_map_seisKey {l1 l2 : List SymSet}
    (h : l1.map seisKey = l2.map seisKey) (k : String × String × TimeFrame) :
    l1.countP (fun m => decide (seisKey m = k)) =
      l2.countP (fun m => decide (seisKey m = k)) := by
  have h1 : ∀ l : List SymSet, l.countP (fun m => decide (seisKey m = k)) =
      (l.map seisKey).countP (fun x => decide (x = k)) := by
    intro l
    rw [List.countP_map]
    rfl
  rw [h1, h1, h]

theorem lookup_setBucketMembers_other (k k' : TimeFrame) (ms : List SymSet)
    (hne : k ≠ k') : ∀ bs : List Bucket,
      lookupBucket (setBucketMembers bs k' ms) k = lookupBucket bs k := by
  intro bs
  induction bs with
  | nil => rfl
  | cons b rest ih =>
    unfold setBucketMembers at ih ⊢
    unfold lookupBucket at ih ⊢
    rw [List.map_cons]
    by_cases hb : b.key = k
    · have hbk' : ¬ b.key = k' := by rw [hb]; exact hne
      rw [if_neg (by simpa using hbk')]
      rw [List.find?_cons_of_pos _ (by simpa using hb), List.find?_cons_of_pos _ (by simpa using hb)]
    · by_cases hb' : b.key = k'
      · rw [if_pos (by simpa using hb')]
        rw [List.find?_cons_of_neg _ (by simpa using hb), List.find?_cons_of_neg _ (by simpa using hb)]
        exact ih
      · rw [if_neg (by simpa using hb')]
        rw [List.find?_cons_of_neg _ (by simpa using hb), List.find?_cons_of_neg _ (by simpa using hb)]
        exact ih

theorem getExpired_buckets (now : Int) (tr : Tracker) :
    (getExpiredIntervals now tr).2.buckets = tr.buckets.map (fun b =>
      if b.trigger ≤ now then { b with trigger := b.trigger + timeframeDelta b.key } else b) := rfl

theorem getExpired_keys (now : Int) (tr : Tracker) :
    (getExpiredIntervals now tr).2.buckets.map Bucket.key = tr.buckets.map Bucket.key := by
  rw [getExpired_buckets, List.map_map]
  apply List.map_congr_left
  intro b _
  by_cases h : b.trigger ≤ now <;> simp [h]

theorem getExpired_allSeis (now : Int) (tr : Tracker) :
    allSeis (getExpiredIntervals now tr).2 = allSeis tr := by
  simp only [allSeis, getExpired_buckets, List.flatMap_map]
  generalize tr.buckets = bs
  induction bs with
  | nil => rfl
  | cons b rest ih =>
    simp only [List.flatMap_cons, ih]
    by_cases h : b.trigger ≤ now <;> simp [h]

theorem getExpired_lookup (now : Int) (tr : Tracker) (k : TimeFrame) :
    lookupBucket (getExpiredIntervals now tr).2.buckets k =
      (lookupBucket tr.buckets k).map (fun b =>
        if b.trigger ≤ now then { b with trigger := b.trigger + timeframeDelta b.key } else b) := by
  rw [getExpired_buckets]
  unfold lookupBucket
  generalize tr.buckets = bs
  induction bs with
  | nil => rfl
  | cons b rest ih =>
    rw [List.map_cons]
    by_cases hb : b.key = k
    · rw [List.find?_cons_of_pos, List.find?_cons_of_pos _ (by simpa using hb)]
      · simp only [Option.map_some']
      · by_cases h : b.trigger ≤ now <;> simpa [h] using hb
    · rw [List.find?_cons_of_neg, List.find?_cons_of_neg _ (by simpa using hb)]
      · exact ih
      · by_cases h : b.trigger ≤ now <;> simpa [h] using hb

theorem getExpired_mem_expired (now : Int) (tr : Tracker) (b : Bucket)
    (hb : b ∈ tr.buckets) (hdue : b.trigger ≤ now) :
    b.key ∈ (getExpiredIntervals now tr).1 := by
  unfold getExpiredIntervals
  exact List.mem_map_of_mem Bucket.key (List.mem_filter.mpr ⟨hb, by simpa using hdue⟩)

theorem getExpired_nodup (now : Int) (tr : Tracker)
    (hnd : (tr.buckets.map Bucket.key).Nodup) :
    (getExpiredIntervals now tr).1.Nodup := by
  unfold getExpiredIntervals
  exact ((List.filter_sublist _).map Bucket.key).nodup hnd

theorem processKey_keys (fetch : Nat → Nat → Option Int) (tr : Tracker) (k : TimeFrame) :
    (processKey fetch tr k).buckets.map Bucket.key = tr.buckets.map Bucket.key := by
  unfold processKey
  split
  · rfl
  · exact setBucketMembers_keys _ _ _

theorem processKey_flags_mono (fetch : Nat → Nat → Option Int) (tr : Tracker)
    (k : TimeFrame) (hsd : tr.shutdownFlag = true) (hit : tr.interruptSet = true) :
    (processKey fetch tr k).shutdownFlag = true ∧
      (processKey fetch tr k).interruptSet = true := by
  unfold processKey
  split
  · exact ⟨hsd, hit⟩
  · rename_i b hlk
    rw [hsd, hit]
    exact processMembers_mono fetch b.members

theorem processKey_lookup_other (fetch : Nat → Nat → Option Int) (tr : Tracker)
    (k k' : TimeFrame) (hne : k ≠ k') :
    lookupBucket (processKey fetch tr k').buckets k = lookupBucket tr.buckets k := by
  unfold processKey
  split
  · rfl
  · exact lookup_setBucketMembers_other k k' _ hne tr.buckets

theorem foldl_processKey_flags_mono (fetch : Nat → Nat → Option Int) :
    ∀ (ks : List TimeFrame) (tr : Tracker),
      tr.shutdownFlag = true → tr.interruptSet = true →
      (ks.foldl (processKey fetch) tr).shutdownFlag = true ∧
        (ks.foldl (processKey fetch) tr).interruptSet = true := by
  intro ks
  induction ks with
  | nil => intro tr hsd hit; exact ⟨hsd, hit⟩
  | cons k rest ih =>
    intro tr hsd hit
    rw [List.foldl_cons]
    obtain ⟨h1, h2⟩ := processKey_flags_mono fetch tr k hsd hit
    exact ih _ h1 h2

theorem foldl_processKey_lookup (fetch : Nat → Nat → Option Int) (k : TimeFrame) :
    ∀ (ks : List TimeFrame) (tr : Tracker), ¬ k ∈ ks →
      lookupBucket ((ks.foldl (processKey fetch) tr)).buckets k =
        lookupBucket tr.buckets k := by
  intro ks
  induction ks with
  | nil => intro tr _; rfl
  | cons k' rest ih =>
    intro tr hnot
    rw [List.foldl_cons]
    rw [ih _ (fun h => hnot (List.mem_cons_of_mem k' h))]
    exact processKey_lookup_other fetch tr k k'
      (fun h => hnot (h ▸ List.mem_cons_self k' rest))

theorem processKey_stale (fetch : Nat → Nat → Option Int) (tr : Tracker)
    (k : TimeFrame) (b : Bucket) (s : SymSet)
    (hlk : lookupBucket tr.buckets k = some b) (hs : s ∈ b.members)
    (hstale : refreshSeis (fetch s.sid) s = (s, none)) :
    (processKey fetch tr k).shutdownFlag = true ∧
      (processKey fetch tr k).interruptSet = true := by
  unfold processKey
  rw [hlk]
  exact processMembers_stale fetch b.members tr.shutdownFlag tr.interruptSet s hs hstale

theorem processExpired_shutdown (now : Int) (fetch : Nat → Nat → Option Int)
    (tr : Tracker) (b : Bucket) (s : SymSet)
    (hnd : (tr.buckets.map Bucket.key).Nodup)
    (hb : b ∈ tr.buckets) (hs : s ∈ b.members) (hdue : b.trigger ≤ now)
    (hstale : refreshSeis (fetch s.sid) s = (s, none)) :
    (processExpired now fetch tr).shutdownFlag = true ∧
      (processExpired now fetch tr).interruptSet = true := by
  unfold processExpired
  have hlkb : lookupBucket tr.buckets b.key = some b := by
    unfold lookupBucket
    apply find?_unique _ _ _ hb (by simp)
    intro x hx hpx
    exact List.inj_on_of_nodup_map hnd hx hb (by simpa using hpx)
  have hmem : b.key ∈ (getExpiredIntervals now tr).1 := getExpired_mem_expired now tr b hb hdue
  have hndE : (getExpiredIntervals now tr).1.Nodup := getExpired_nodup now tr hnd
  rcases List.append_of_mem hmem with ⟨l1, l2, hsplit⟩
  have hnotl1 : ¬ b.key ∈ l1 := by
    intro hin
    rw [hsplit] at hndE
    rcases List.nodup_append.mp hndE with ⟨_, _, hdisj⟩
    exact hdisj hin (List.mem_cons_self _ _)
  rw [hsplit, List.foldl_append, List.foldl_cons]
  have hlk2 : lookupBucket ((l1.foldl (processKey fetch) (getExpiredIntervals now tr).2)).buckets b.key =
      some { b with trigger := b.trigger + timeframeDelta b.key } := by
    rw [foldl_processKey_lookup fetch b.key l1 _ hnotl1, getExpired_lookup, hlkb]
    simp [hdue]
  have hflags := processKey_stale fetch _ b.key _ s hlk2 hs hstale
  exact foldl_processKey_flags_mono fetch l2 _ hflags.1 hflags.2

theorem feedWF_processKey (fetch : Nat → Nat → Option Int) (tr : Tracker)
    (k : TimeFrame) (h : feedWF tr) : feedWF (processKey fetch tr k) := by
  obtain ⟨hnd, hco, hcnt⟩ := h
  unfold processKey
  split
  · exact ⟨hnd, hco, hcnt⟩
  · rename_i b hlk
    have hmap : ((processMembers fetch tr.shutdownFlag tr.interruptSet b.members).2.2).map seisKey =
        b.members.map seisKey :=
      processMembers_map_seisKey fetch b.members tr.shutdownFlag tr.interruptSet
    have hbmem : b ∈ tr.buckets := List.mem_of_find?_eq_some hlk
    have hbk : b.key = k := by simpa using List.find?_some hlk
    refine ⟨?_, ?_, ?_⟩
    · simpa [setBucketMembers_keys] using hnd
    · intro b1 hb1 m hm
      unfold setBucketMembers at hb1
      rcases List.mem_map.mp hb1 with ⟨b0, hb0, hmapb⟩
      subst hmapb
      by_cases hk : b0.key = k
      · rw [if_pos (by simpa using hk)] at hm ⊢
        simp only at hm ⊢
        have hmk : seisKey m ∈ b.members.map seisKey := by
          rw [← hmap]
          exact List.mem_map_of_mem seisKey hm
        rcases List.mem_map.mp hmk with ⟨m0, hm0, hkey0⟩
        have hint : m.interval = m0.interval := by
          have h0 := hkey0
          simp only [seisKey, Prod.mk.injEq] at h0
          exact h0.2.2.symm
        rw [hint, hco b hbmem m0 hm0, hbk, hk]
      · rw [if_neg (by simpa using hk)] at hm ⊢
        exact hco b0 hb0 m hm
    · intro k0
      have hflat := countP_flatten_setBucketMembers (fun m => decide (seisKey m = k0))
        tr.buckets k ((processMembers fetch tr.shutdownFlag tr.interruptSet b.members).2.2)
        b hnd hlk
      have hceq := countP_eq_of_map_seisKey hmap k0
      have hb1 := hcnt k0
      simp only [allSeis] at hb1 ⊢
      omega

theorem feedWF_foldl_processKey (fetch : Nat → Nat → Option Int) :
    ∀ (ks : List TimeFrame) (tr : Tracker), feedWF tr →
      feedWF (ks.foldl (processKey fetch) tr) := by
  intro ks
  induction ks with
  | nil => intro tr h; exact h
  | cons k rest ih =>
    intro tr h
    rw [List.foldl_cons]
    exact ih _ (feedWF_processKey fetch tr k h)

theorem feedWF_getExpired (now : Int) (tr : Tracker) (h : feedWF tr) :
    feedWF (getExpiredIntervals now tr).2 := by
  obtain ⟨hnd, hco, hcnt⟩ := h
  refine ⟨by rw [getExpired_keys]; exact hnd, ?_, ?_⟩
  · intro b hb m hm
    rw [getExpired_buckets] at hb
    rcases List.mem_map.mp hb with ⟨b0, hb0, hmap⟩
    subst hmap
    by_cases hd : b0.trigger ≤ now
    · rw [if_pos hd] at hm ⊢
      simp only at hm ⊢
      exact hco b0 hb0 m hm
    · rw [if_neg hd] at hm ⊢
      exact hco b0 hb0 m hm
  · intro k
    rw [getExpired_allSeis]
    exact hcnt k

theorem feedWF_processExpired (now : Int) (fetch : Nat → Nat → Option Int)
    (tr : Tracker) (h : feedWF tr) : feedWF (processExpired now fetch tr) := by
  unfold processExpired
  exact feedWF_foldl_processKey fetch _ _ (feedWF_getExpired now tr h)

theorem foldl_processKey_keys (fetch : Nat → Nat → Option Int) :
    ∀ (ks : List TimeFrame) (tr : Tracker),
      ((ks.foldl (processKey fetch) tr).buckets.map Bucket.key) =
        tr.buckets.map Bucket.key := by
  intro ks
  induction ks with
  | nil => intro tr; rfl
  | cons k rest ih =>
    intro tr
    rw [List.foldl_cons, ih, processKey_keys]

theorem processExpired_keys (now : Int) (fetch : Nat → Nat → Option Int)
    (tr : Tracker) :
    (processExpired now fetch tr).buckets.map Bucket.key = tr.buckets.map Bucket.key := by
  unfold processExpired
  rw [foldl_processKey_keys, getExpired_keys]

theorem flatMap_members_cons (bs : List Bucket) (s : SymSet) (rest : List SymSet)
    (h : bs.flatMap Bucket.members = s :: rest) :
    ∃ (empties : List Bucket) (b : Bucket) (after : List Bucket) (tail : List SymSet),
      bs = empties ++ b :: after ∧ (∀ e ∈ empties, e.members = []) ∧
      b.members = s :: tail ∧ rest = tail ++ after.flatMap Bucket.members := by
  induction bs with
  | nil => simp at h
  | cons b0 bs' ih =>
    rw [List.flatMap_cons] at h
    match hm : b0.members with
    | [] =>
      rw [hm, List.nil_append] at h
      rcases ih h with ⟨empties, b, after, tail, h1, h2, h3, h4⟩
      refine ⟨b0 :: empties, b, after, tail, by rw [h1]; rfl, ?_, h3, h4⟩
      intro e he
      rcases List.mem_cons.mp he with rfl | he
      · exact hm
      · exact h2 e he
    | s0 :: t =>
      rw [hm, List.cons_append] at h
      injection h with h5 h6
      refine ⟨[], b0, bs', t, rfl, ?_, ?_, ?_⟩
      · intro e he
        cases he
      · rw [hm, h5]
      · exact h6.symm

theorem removeT_head (tr : Tracker) (s : SymSet) (rest : List SymSet)
    (hWF : feedWF tr) (hall : allSeis tr = s :: rest) :
    (removeSymbolSetT tr s).2 = false ∧
    allSeis (removeSymbolSetT tr s).1 = rest ∧
    feedWF (removeSymbolSetT tr s).1 := by
  obtain ⟨hnd, hco, hcnt⟩ := hWF
  have hWF' : feedWF (removeSymbolSetT tr s).1 :=
    ⟨removeT_keys_nodup tr s hnd, removeT_coherent tr s hco,
     fun k => le_trans (countP_allSeis_removeT_le tr s _ hnd) (hcnt k)⟩
  rcases flatMap_members_cons tr.buckets s rest hall with
    ⟨empties, b, after, tail, hbs, hemp, hbm, hrest⟩
  have hbmem : b ∈ tr.buckets := by
    rw [hbs]
    exact List.mem_append_right _ (List.mem_cons_self _ _)
  have hsk : s.interval = b.key :=
    hco b hbmem s (by rw [hbm]; exact List.mem_cons_self _ _)
  have hothers : ∀ x ∈ empties ++ after, x.key ≠ b.key := by
    rw [hbs, List.map_append, List.map_cons] at hnd
    rcases List.nodup_append.mp hnd with ⟨_, hnd2, hdisj⟩
    rcases List.nodup_cons.mp hnd2 with ⟨hnotin, _⟩
    intro x hx heq
    rcases List.mem_append.mp hx with hx | hx
    · exact hdisj (List.mem_map_of_mem _ hx) (heq ▸ List.mem_cons_self _ _)
    · exact hnotin (heq ▸ List.mem_map_of_mem _ hx)
  have hempflat : empties.flatMap Bucket.members = [] :=
    List.flatMap_eq_nil_iff.mpr hemp
  have hcont : containsSeis tr s = true := by
    unfold containsSeis
    apply List.any_eq_true.mpr
    refine ⟨s, by rw [hall]; exact List.mem_cons_self _ _, by simp [seisEq]⟩
  have hlkb : lookupBucket tr.buckets s.interval = some b := by
    unfold lookupBucket
    rw [hsk, hbs, List.find?_append]
    have h1 : empties.find? (fun x => x.key == b.key) = none := by
      rw [List.find?_eq_none]
      intro x hx
      simpa using hothers x (List.mem_append_left _ hx)
    rw [h1, List.find?_cons_of_pos _ (by simp)]
    rfl
  have hrm : removeFirstSeis s b.members = some tail := by
    rw [hbm]
    unfold removeFirstSeis
    rw [if_pos (by simp [seisEq])]
  have herase : eraseBucket tr.buckets s.interval = empties ++ after := by
    unfold eraseBucket
    rw [hsk, hbs, List.filter_append, List.filter_cons]
    rw [if_neg (by simp)]
    rw [List.filter_eq_self.mpr
      (fun a ha => by simpa using hothers a (List.mem_append_left _ ha))]
    rw [List.filter_eq_self.mpr
      (fun a ha => by simpa using hothers a (List.mem_append_right _ ha))]
  have hset : setBucketMembers tr.buckets s.interval tail =
      empties ++ { b with members := tail } :: after := by
    have hid1 : setBucketMembers empties s.interval tail = empties :=
      setBucketMembers_id _ _ _
        (fun x hx => by rw [hsk]; exact hothers x (List.mem_append_left _ hx))
    have hid2 : setBucketMembers after s.interval tail = after :=
      setBucketMembers_id _ _ _
        (fun x hx => by rw [hsk]; exact hothers x (List.mem_append_right _ hx))
    unfold setBucketMembers at hid1 hid2 ⊢
    rw [hbs, List.map_append, List.map_cons, hid1, hid2,
      if_pos (by rw [hsk]; simp)]
  refine ⟨?_, ?_, hWF'⟩
  · unfold removeSymbolSetT
    rw [if_neg (by simp [hcont]), hlkb]
    dsimp only
    split
    · rename_i heq
      rw [hrm] at heq
      cases heq
    · rename_i ms heq
      rw [hrm] at heq
      injection heq with heq
      subst heq
      by_cases htail : tail = []
      · rw [if_pos htail]
        split <;> rfl
      · rw [if_neg htail]
  · unfold removeSymbolSetT
    rw [if_neg (by simp [hcont]), hlkb]
    dsimp only
    split
    · rename_i heq
      rw [hrm] at heq
      cases heq
    · rename_i ms heq
      rw [hrm] at heq
      injection heq with heq
      subst heq
      by_cases htail : tail = []
      · rw [if_pos htail]
        have hflat : (eraseBucket tr.buckets s.interval).flatMap Bucket.members = rest := by
          rw [herase]
          simp only [List.flatMap_append, hempflat, List.nil_append]
          rw [hrest, htail, List.nil_append]
        split
        · exact hflat
        · exact hflat
      · rw [if_neg htail]
        show (setBucketMembers tr.buckets s.interval tail).flatMap Bucket.members = rest
        rw [hset]
        simp only [List.flatMap_append, hempflat, List.nil_append, List.flatMap_cons]
        exact hrest.symm

theorem cleanupGo_spec : ∀ (n : Nat) (tr : Tracker) (acc : List DC),
    (allSeis tr).length = n → feedWF tr →
    ∃ trF, cleanupGo (allSeis tr) tr acc =
      (some trF, acc ++ (allSeis tr).flatMap (fun m => m.consumers.map stopConsumer)) := by
  intro n
  induction n with
  | zero =>
    intro tr acc hlen hWF
    have hnil : allSeis tr = [] := List.length_eq_zero.mp hlen
    rw [hnil]
    exact ⟨tr, by simp [cleanupGo]⟩
  | succ n ih =>
    intro tr acc hlen hWF
    match hall : allSeis tr with
    | [] =>
      rw [hall] at hlen
      simp at hlen
    | s :: rest =>
      obtain ⟨hraise, hall', hWF'⟩ := removeT_head tr s rest hWF hall
      have hpair : removeSymbolSetT tr s = ((removeSymbolSetT tr s).1, false) := by
        rw [← hraise]
      have hlen' : (allSeis (removeSymbolSetT tr s).1).length = n := by
        rw [hall']
        rw [hall] at hlen
        simpa using hlen
      rcases ih (removeSymbolSetT tr s).1 (acc ++ s.consumers.map stopConsumer)
        hlen' hWF' with ⟨trF, hF⟩
      refine ⟨trF, ?_⟩
      unfold cleanupGo
      dsimp only
      rw [hpair]
      rw [hall'] at hF
      show cleanupGo rest (removeSymbolSetT tr s).1 (acc ++ s.consumers.map stopConsumer) = _
      rw [hF]
      simp [List.append_assoc]

theorem calcNextTrigger_isSome (bs : List Bucket) (h : bs ≠ []) :
    ∃ t, calculateNextTrigger bs = some t := by
  cases bs with
  | nil => exact absurd rfl h
  | cons b rest => exact ⟨_, rfl⟩

theorem waitForTrigger_elapsed (fuel : Nat) (tr : Tracker)
    (hsd : tr.shutdownFlag = false) (t : Int)
    (hcalc : calculateNextTrigger tr.buckets = some t) :
    waitForTrigger (fuel + 1) tr =
      (some true, { tr with
        interruptSet := false
        nextTrigger := calculateNextTrigger tr.buckets }) := by
  unfold waitForTrigger
  rw [if_pos hsd]
  unfold waitTriggerLoop
  dsimp only
  rw [hcalc]
  simp

theorem waitForTrigger_shutdown (fuel : Nat) (tr : Tracker)
    (hsd : tr.shutdownFlag = true) (hit : tr.interruptSet = true) (t : Int)
    (hcalc : calculateNextTrigger tr.buckets = some t) :
    waitForTrigger (fuel + 1) tr =
      (some false, { tr with nextTrigger := calculateNextTrigger tr.buckets }) := by
  unfold waitForTrigger
  rw [if_neg (by simp [hsd])]
  unfold waitTriggerLoop
  dsimp only
  rw [hcalc]
  simp [hit, hsd]

theorem dataLoop_step_true (fetch : Nat → Nat → Option Int) (nows : Nat → Int)
    (i fuel : Nat) (tr tr' : Tracker)
    (h : waitForTrigger fuel tr = (some true, tr')) :
    dataLoop fetch nows i (fuel + 1) tr =
      dataLoop fetch nows (i + 1) fuel (processExpired (nows i) fetch tr') := by
  conv_lhs => unfold dataLoop
  rw [h]

theorem dataLoop_step_false (fetch : Nat → Nat → Option Int) (nows : Nat → Int)
    (i fuel : Nat) (tr tr' trF : Tracker) (cs : List DC)
    (h : waitForTrigger fuel tr = (some false, tr'))
    (hc : cleanup tr' = (some trF, cs)) :
    dataLoop fetch nows i (fuel + 1) tr = some (trF, cs) := by
  unfold dataLoop
  rw [h]
  show (match cleanup tr' with
    | (some trF, cs) => some (trF, cs)
    | (none, _) => none) = _
  rw [hc]

/-- C2: refresh staleness shuts the whole feed down and stops every
consumer.  If some tracked subscription `s` sits in a due bucket `b` and
the upstream fetch returns the unchanged latest timestamp `t0` on all
`RETRY_LIMIT` attempts, then one pass of `_data_loop` over the expired
intervals invokes `request_shutdown()` (the shutdown flag and the
interrupt event are both set on the resulting tracker `st1`), the next
`wait_for_trigger` returns `False` so the orchestrator loop exits, and
the loop's cleanup enqueues the `None` stop sentinel into every consumer
channel of every remaining subscription: `dataLoop` terminates returning
exactly the consumers of `allSeis st1`, each extended with `none`. -/
theorem stale_refresh_shutdown_stops_consumers
    (fetch : Nat → Nat → Option Int) (nows : Nat → Int) (fuel : Nat)
    (tr trW st1 : Tracker) (b : Bucket) (s : SymSet) (t0 : Int)
    (htrW : trW = { tr with
      interruptSet := false
      nextTrigger := calculateNextTrigger tr.buckets })
    (hst1 : st1 = processExpired (nows 0) fetch trW)
    (hWF : feedWF tr)
    (hsd : tr.shutdownFlag = false)
    (hb : b ∈ tr.buckets)
    (hs : s ∈ b.members)
    (hdue : b.trigger ≤ nows 0)
    (hlast : s.lastUpdate = some t0)
    (hfetch : ∀ a, a < RETRY_LIMIT → fetch s.sid a = some t0) :
    st1.shutdownFlag = true ∧ st1.interruptSet = true ∧
    ∃ trF, dataLoop fetch nows 0 (fuel + 3) tr =
      some (trF, (allSeis st1).flatMap (fun m => m.consumers.map stopConsumer)) := by
  obtain ⟨hnd, hco, hcnt⟩ := hWF
  have hWFW : feedWF trW := by rw [htrW]; exact ⟨hnd, hco, hcnt⟩
  have hstale : refreshSeis (fetch s.sid) s = (s, none) :=
    refreshSeis_stale (fetch s.sid) t0 s hlast hfetch
  have hbW : b ∈ trW.buckets := by rw [htrW]; exact hb
  have hndW : (trW.buckets.map Bucket.key).Nodup := by rw [htrW]; exact hnd
  have hflags : st1.shutdownFlag = true ∧ st1.interruptSet = true := by
    rw [hst1]
    exact processExpired_shutdown (nows 0) fetch trW b s hndW hbW hs hdue hstale
  have hWF1 : feedWF st1 := by
    rw [hst1]
    exact feedWF_processExpired _ _ _ hWFW
  have hbne : tr.buckets ≠ [] := by
    intro h
    rw [h] at hb
    exact absurd hb (List.not_mem_nil b)
  have hkeys1 : st1.buckets.map Bucket.key = tr.buckets.map Bucket.key := by
    rw [hst1, htrW]
    exact processExpired_keys (nows 0) fetch _
  have hmemk : b.key ∈ st1.buckets.map Bucket.key := by
    rw [hkeys1]
    exact List.mem_map_of_mem _ hb
  have hbne1 : st1.buckets ≠ [] := by
    intro h
    rw [h] at hmemk
    simp at hmemk
  rcases calcNextTrigger_isSome tr.buckets hbne with ⟨t1, hc1⟩
  rcases calcNextTrigger_isSome st1.buckets hbne1 with ⟨t2, hc2⟩
  have hw1 : waitForTrigger (fuel + 2) tr = (some true, trW) := by
    rw [htrW]
    exact waitForTrigger_elapsed (fuel + 1) tr hsd t1 hc1
  have hw2 : waitForTrigger (fuel + 1) st1 =
      (some false, { st1 with nextTrigger := calculateNextTrigger st1.buckets }) :=
    waitForTrigger_shutdown fuel st1 hflags.1 hflags.2 t2 hc2
  have hWF2 : feedWF { st1 with nextTrigger := calculateNextTrigger st1.buckets } := hWF1
  rcases cleanupGo_spec
      (allSeis { st1 with nextTrigger := calculateNextTrigger st1.buckets }).length
      { st1 with nextTrigger := calculateNextTrigger st1.buckets } [] rfl hWF2
    with ⟨trF, hclean⟩
  have hcleanup : cleanup { st1 with nextTrigger := calculateNextTrigger st1.buckets } =
      (some trF, (allSeis st1).flatMap (fun m => m.consumers.map stopConsumer)) := by
    show cleanupGo _ _ [] = _
    rw [hclean]
    rw [List.nil_append]
    rfl
  refine ⟨hflags.1, hflags.2, trF, ?_⟩
  show dataLoop fetch nows 0 (fuel + 2 + 1) tr = _
  rw [dataLoop_step_true fetch nows 0 (fuel + 2) tr trW hw1]
  rw [← hst1]
  show dataLoop fetch nows 1 (fuel + 1 + 1) st1 = _
  exact dataLoop_step_false fetch nows 1 (fuel + 1) st1 _ trF _ hw2 hcleanup

/-- A concrete tracked subscription for the staleness witness: one daily
symbol set with one consumer and a last update of 5. -/
def seisC2 : SymSet := ⟨0, "BTCUSD", "BINANCE", TimeFrame.DAILY, some 5, [⟨[]⟩]⟩

/-- A concrete tracker holding `seisC2` in a daily bucket due at time 10. -/
def trC2 : Tracker := ⟨[⟨TimeFrame.DAILY, [seisC2], 10⟩], false, false, some 10⟩

/-- The tracker after one stale processing pass over `trC2`. -/
def st1C2 : Tracker :=
  processExpired 10 (fun _ _ => some (5 : Int))
    { trC2 with interruptSet := false, nextTrigger := calculateNextTrigger trC2.buckets }

/-- Witness for `stale_refresh_shutdown_stops_consumers`: on the concrete
one-subscription tracker `trC2` with a fetch oracle that always returns
the unchanged timestamp 5, the loop shuts down and stops the consumer. -/
theorem stale_refresh_shutdown_stops_consumers_witness :
    st1C2.shutdownFlag = true ∧ st1C2.interruptSet = true ∧
    ∃ trF, dataLoop (fun _ _ => some (5 : Int)) (fun _ => (10 : Int)) 0 3 trC2 =
      some (trF, (allSeis st1C2).flatMap (fun m => m.consumers.map stopConsumer)) :=
  stale_refresh_shutdown_stops_consumers (fun _ _ => some (5 : Int)) (fun _ => (10 : Int))
    0 trC2 { trC2 with interruptSet := false, nextTrigger := calculateNextTrigger trC2.buckets }
    st1C2 ⟨TimeFrame.DAILY, [seisC2], 10⟩ seisC2 5 rfl rfl
    ⟨by decide, by decide, fun k => le_trans (List.countP_le_length _) (by decide)⟩
    rfl (by decide) (by decide) (by decide) rfl (fun a _ => rfl)
